import Mathlib

/-!
Verification development for the Mindlytics Python SDK event dispatch engine.

The repository ships its documentation (README, examples) but the `mlsdk`
package sources themselves are not present under `src/`; the definitions
below are therefore modelled from the specification document (spec.md):
the event model, the session/conversation lifecycle state machine, the
bounded dispatch queue, the delivery worker with retry policy, the
realtime listener wait, and the client-level direct user calls.
-/

set_option maxHeartbeats 1000000

/-- Modelled from the spec: lifecycle states for sessions and conversations
(`Unstarted → Active → Ended`, spec §4.1); the `mlsdk` session module is
missing from `src/`. -/
inductive LifeState
  | unstarted
  | active
  | ended
deriving DecidableEq

/-- Modelled from the spec: the tagged event kinds of the Event Model
(spec §3); the `mlsdk` event types module is missing from `src/`. -/
inductive EventKind
  | sessionStart
  | sessionEnd
  | conversationStart
  | conversationTurn
  | conversationEnd
  | track
  | identify
  | aliasUser
deriving DecidableEq

/-- Modelled from the spec: property values are restricted to
string/bool/number (spec §3). -/
inductive PropValue
  | str (s : String)
  | boolean (b : Bool)
  | num (n : Int)
deriving DecidableEq

/-- Modelled from the spec: a Cost record holds model name, prompt-token
count and completion-token count (spec §3). -/
structure CostRecord where
  model : String
  promptTokens : Nat
  completionTokens : Nat
deriving DecidableEq

/-- Modelled from the spec: an immutable Event with kind, local sequence
number, timestamp, session id, optional conversation id, property mapping,
user-trait mapping and optional cost record (spec §3); the `mlsdk` event
module is missing from `src/`. -/
structure Event where
  kind : EventKind
  seq : Nat
  timestamp : Nat
  sessionId : String
  conversationId : Option String
  properties : List (String × PropValue)
  userTraits : List (String × PropValue)
  cost : Option CostRecord
deriving DecidableEq

/-- Modelled from the spec: a Conversation with identifier, owning session
identifier, start timestamp, nullable end timestamp, accumulated turn count
and lifecycle state (spec §3). -/
structure Conversation where
  id : String
  sessionId : String
  startedAt : Nat
  endedAt : Option Nat
  turnCount : Nat
  state : LifeState
deriving DecidableEq

/-- Modelled from the spec: a delivery failure description capturing an
optional status code and a message (spec §4.3, §7); the `mlsdk` errors
module is missing from `src/`. -/
structure DeliveryError where
  status : Option Nat
  message : String
deriving DecidableEq

/-- Modelled from the spec: the error taxonomy of §7 — `InvalidStateError`,
`QueueClosedError`, `DeliveryError`, `StreamError`. -/
inductive SdkError
  | invalidState (message : String)
  | queueClosed
  | deliveryError (e : DeliveryError)
  | streamError (message : String)
deriving DecidableEq

/-- Modelled from the spec: the per-session facade state — identifiers,
creation time, lifecycle state, the conversations opened under it (in start
order), the next local sequence number, a logical clock used to stamp
timestamps, and the ordered stream of events already handed to the Dispatch
Queue (spec §3, §4.1); the `mlsdk` session module is missing from `src/`. -/
structure SessionState where
  sessionId : String
  userId : Option String
  deviceId : Option String
  createdAt : Nat
  state : LifeState
  conversations : List Conversation
  nextSeq : Nat
  clock : Nat
  emitted : List Event
deriving DecidableEq

/-- Modelled from the spec: a freshly created, not-yet-started session. -/
def initSession (sid : String) : SessionState :=
  { sessionId := sid
    userId := none
    deviceId := none
    createdAt := 0
    state := .unstarted
    conversations := []
    nextSeq := 0
    clock := 0
    emitted := [] }

/-- Modelled from the spec: every transition stamps the transition event
with session/conversation identifiers, a timestamp and a monotonically
increasing local sequence number, then hands the event to the Dispatch
Queue (spec §3, §4.1). -/
def SessionState.emit (s : SessionState) (k : EventKind) (cid : Option String)
    (props : List (String × PropValue)) (traits : List (String × PropValue))
    (cost : Option CostRecord) : SessionState :=
  { s with
    emitted := s.emitted ++
      [{ kind := k, seq := s.nextSeq, timestamp := s.clock,
         sessionId := s.sessionId, conversationId := cid,
         properties := props, userTraits := traits, cost := cost }]
    nextSeq := s.nextSeq + 1
    clock := s.clock + 1 }

/-- Modelled from the spec: `start_session`: `Unstarted → Active`, fails
with `InvalidStateError` if already `Active` or `Ended` (spec §4.1). -/
def startSessionOp (s : SessionState) (uid : Option String)
    (props : List (String × PropValue)) : Except SdkError SessionState :=
  match s.state with
  | .unstarted =>
      .ok (({ s with
              state := .active
              userId := uid.orElse (fun _ => s.userId) }).emit
            .sessionStart none props [] none)
  | _ => .error (.invalidState "session already started or ended")

/-- Modelled from the spec: the idempotent `ensure_started` operation for a
session — auto-invoked lazily the first time any tracking call is made on
an unstarted session (spec §4.1, §9). -/
def ensureSessionStarted (s : SessionState) : Except SdkError SessionState :=
  match s.state with
  | .unstarted => startSessionOp s none []
  | .active => .ok s
  | .ended => .error (.invalidState "session already ended")

/-- Modelled from the spec: a Conversation is created directly in the
`Active` state under the session (spec §4.1). -/
def newConversation (sid cid : String) (now : Nat) : Conversation :=
  { id := cid, sessionId := sid, startedAt := now, endedAt := none,
    turnCount := 0, state := .active }

/-- Modelled from the spec: `start_conversation` creates a Conversation in
`Active` state under the session; fails if the session is not `Active`, or
if the conversation id was already started (per-conversation state machine,
spec §4.1, §3 invariants). -/
def startConversationCore (s : SessionState) (cid : String)
    (props : List (String × PropValue)) : Except SdkError SessionState :=
  match s.state with
  | .active =>
      if s.conversations.any (fun c => c.id == cid) then
        .error (.invalidState "conversation already started")
      else
        .ok (({ s with
                conversations :=
                  s.conversations ++ [newConversation s.sessionId cid s.clock] }).emit
              .conversationStart (some cid) props [] none)
  | _ => .error (.invalidState "session not active")

/-- Modelled from the spec: the public `start_conversation` — sessions are
started on demand, then the conversation is created (spec §4.1, README). -/
def startConversationOp (s : SessionState) (cid : String)
    (props : List (String × PropValue)) : Except SdkError SessionState := do
  let s1 ← ensureSessionStarted s
  startConversationCore s1 cid props

/-- Modelled from the spec: the idempotent `ensure_started` operation for a
conversation — reuses an open conversation with this id, fails if that id
was already ended, auto-starts it otherwise (spec §4.1, §9). -/
def ensureConversationStarted (s : SessionState) (cid : String) :
    Except SdkError SessionState :=
  match s.conversations.find? (fun c => c.id == cid) with
  | some c =>
      if c.state == .active then .ok s
      else .error (.invalidState "conversation already ended")
  | none => startConversationCore s cid []

/-- Modelled from the spec: the default conversation identifier is a
deterministic function of the session id (spec §4.1: "a deterministic
identifier (e.g., derived from session id)"); we use the session id
itself. -/
def defaultConversationId (sid : String) : String := sid

/-- Modelled from the spec: increment the accumulated turn count of the
conversation with this id (spec §3). -/
def bumpTurn (s : SessionState) (cid : String) : SessionState :=
  { s with conversations :=
      s.conversations.map (fun c =>
        if c.id == cid then { c with turnCount := c.turnCount + 1 } else c) }

/-- Modelled from the spec: `track_conversation_turn` — permitted only
while the session is `Active` (lazily auto-started); if no explicit
conversation id is supplied, the default conversation is auto-started or
reused (spec §4.1). -/
def trackConversationTurnOp (s : SessionState) (ocid : Option String)
    (cost : Option CostRecord) : Except SdkError SessionState := do
  let s1 ← ensureSessionStarted s
  let cid := ocid.getD (defaultConversationId s1.sessionId)
  let s2 ← ensureConversationStarted s1 cid
  .ok ((bumpTurn s2 cid).emit .conversationTurn (some cid) [] [] cost)

/-- Modelled from the spec: `track_event` — permitted only while the
session is `Active` (lazily auto-started); plain events need no
conversation (spec §4.1). -/
def trackEventOp (s : SessionState) (props : List (String × PropValue)) :
    Except SdkError SessionState := do
  let s1 ← ensureSessionStarted s
  .ok (s1.emit .track none props [] none)

/-- Modelled from the spec: mark the conversation with this id `Ended`,
recording its end timestamp (spec §3, §4.1). -/
def setConversationEnded (s : SessionState) (cid : String) : SessionState :=
  { s with conversations :=
      s.conversations.map (fun c =>
        if c.id == cid then { c with state := .ended, endedAt := some s.clock }
        else c) }

/-- Modelled from the spec: `end_conversation`: `Active → Ended`; fails if
the conversation was never started or already ended (spec §4.1). -/
def endConversationOp (s : SessionState) (cid : String)
    (props : List (String × PropValue)) : Except SdkError SessionState :=
  match s.state with
  | .active =>
      match s.conversations.find? (fun c => c.id == cid) with
      | none => .error (.invalidState "conversation never started")
      | some c =>
          if c.state == .ended then
            .error (.invalidState "conversation already ended")
          else
            .ok ((setConversationEnded s cid).emit .conversationEnd (some cid)
                  props [] none)
  | _ => .error (.invalidState "session not active")

/-- Modelled from the spec: force-end one still-open conversation during
`end_session`, emitting its end event (spec §4.1). -/
def endOneConversation (acc : SessionState) (c : Conversation) : SessionState :=
  (setConversationEnded acc c.id).emit .conversationEnd (some c.id) [] [] none

/-- Modelled from the spec: force-end a list of conversations in order
(spec §4.1: each emits its own end event before the session-end event). -/
def endAllConversations (s : SessionState) (cs : List Conversation) : SessionState :=
  cs.foldl endOneConversation s

/-- Modelled from the spec: `end_session`: `Active → Ended`; force-ends
every conversation still `Active` in start order, each emitting its own end
event before the session-end event (spec §4.1). -/
def endSessionOp (s : SessionState) (props : List (String × PropValue)) :
    Except SdkError SessionState :=
  match s.state with
  | .active =>
      let opens := s.conversations.filter (fun c => c.state == LifeState.active)
      let s1 := endAllConversations s opens
      .ok (({ s1 with state := .ended }).emit .sessionEnd none props [] none)
  | _ => .error (.invalidState "session not active")

/-- Modelled from the spec: session-scoped `user_identify` — produces an
Identify event that needs no conversation; the session is started on demand
so the stamped event joins a started session stream (spec §4.1, §8). -/
def userIdentifyOp (s : SessionState) (uid : String)
    (traits : List (String × PropValue)) : Except SdkError SessionState := do
  let s1 ← ensureSessionStarted s
  .ok (({ s1 with userId := some uid }).emit .identify none [] traits none)

/-- Modelled from the spec: session-scoped `user_alias` — produces an Alias
event that needs no conversation (spec §4.1). -/
def userAliasOp (s : SessionState) (newId prevId : String) :
    Except SdkError SessionState := do
  let s1 ← ensureSessionStarted s
  .ok (({ s1 with userId := some newId }).emit .aliasUser none
        [("previous_id", PropValue.str prevId)] [] none)

/-- Modelled from the spec: one facade call on the session surface
(spec §4.5). -/
inductive Call
  | startSession (uid : Option String) (props : List (String × PropValue))
  | trackEvent (props : List (String × PropValue))
  | startConversation (cid : String) (props : List (String × PropValue))
  | trackConversationTurn (ocid : Option String) (cost : Option CostRecord)
  | endConversation (cid : String) (props : List (String × PropValue))
  | endSession (props : List (String × PropValue))
  | userIdentify (uid : String) (traits : List (String × PropValue))
  | userAlias (newId prevId : String)

/-- Modelled from the spec: dispatch one facade call to the corresponding
lifecycle operation (spec §4.5). -/
def applyCall (s : SessionState) : Call → Except SdkError SessionState
  | .startSession uid props => startSessionOp s uid props
  | .trackEvent props => trackEventOp s props
  | .startConversation cid props => startConversationOp s cid props
  | .trackConversationTurn ocid cost => trackConversationTurnOp s ocid cost
  | .endConversation cid props => endConversationOp s cid props
  | .endSession props => endSessionOp s props
  | .userIdentify uid traits => userIdentifyOp s uid traits
  | .userAlias newId prevId => userAliasOp s newId prevId

/-- Modelled from the spec: a misused call fails fast and synchronously
and leaves the state unchanged — nothing is stamped or queued (spec §7). -/
def step (s : SessionState) (c : Call) : SessionState :=
  match applyCall s c with
  | .ok s1 => s1
  | .error _ => s

/-- Modelled from the spec: run a sequence of facade calls. -/
def runCalls (s : SessionState) (cs : List Call) : SessionState :=
  cs.foldl step s

/-- Modelled from the spec: the backpressure policy is configuration —
either suspend the caller until space frees or drop the oldest unsent item
(spec §4.2); the `mlsdk` queue module is missing from `src/`. -/
inductive BackpressurePolicy
  | suspendCaller
  | dropOldest
deriving DecidableEq

/-- Modelled from the spec: the bounded, ordered dispatch queue with a
dropped-event counter and a closed flag (spec §4.2). -/
structure DispatchQueue (α : Type) where
  capacity : Nat
  policy : BackpressurePolicy
  buffer : List α
  dropped : Nat
  closed : Bool

/-- Modelled from the spec: an open, empty dispatch queue configured with a
capacity and a backpressure policy (spec §4.2). -/
def mkQueue (α : Type) (capacity : Nat) (policy : BackpressurePolicy) :
    DispatchQueue α :=
  { capacity := capacity, policy := policy, buffer := [], dropped := 0,
    closed := false }

/-- Modelled from the spec: the immediate outcome of one enqueue — accepted
without suspension, caller must suspend until space frees (bounded-wait
policy on a full buffer), or rejected because the queue is closed
(spec §4.2). -/
inductive EnqueueResult (α : Type)
  | accepted (q : DispatchQueue α)
  | suspendedFull
  | rejectedClosed

/-- Modelled from the spec: enqueue is non-blocking under normal load; on a
full buffer it applies the configured policy — suspend the caller, or drop
the oldest unsent item and bump the dropped-event count; after close no
further enqueues are accepted (spec §4.2). -/
def DispatchQueue.enqueue (q : DispatchQueue α) (x : α) : EnqueueResult α :=
  if q.closed then .rejectedClosed
  else if q.buffer.length < q.capacity then
    .accepted { q with buffer := q.buffer ++ [x] }
  else
    match q.policy with
    | .suspendCaller => .suspendedFull
    | .dropOldest =>
        .accepted { q with buffer := q.buffer.tail ++ [x], dropped := q.dropped + 1 }

/-- Modelled from the spec: the queue state after one enqueue attempt — a
suspended or rejected enqueue leaves the queue unchanged (spec §4.2). -/
def enqueueStep (q : DispatchQueue α) (x : α) : DispatchQueue α :=
  match q.enqueue x with
  | .accepted q1 => q1
  | .suspendedFull => q
  | .rejectedClosed => q

/-- Modelled from the spec: enqueue a whole list of items in order
(spec §4.2). -/
def enqueueList (q : DispatchQueue α) (xs : List α) : DispatchQueue α :=
  xs.foldl enqueueStep q

/-- Modelled from the spec: whether every enqueue in the sequence returned
immediately accepted — no suspension of the caller and no closed rejection
(spec §4.2). -/
def allAccepted (q : DispatchQueue α) : List α → Bool
  | [] => true
  | x :: xs =>
      match q.enqueue x with
      | .accepted q1 => allAccepted q1 xs
      | .suspendedFull => false
      | .rejectedClosed => false

/-- Modelled from the spec: the worker pulls up to a batch-size bound of
queued events per cycle, forming batches that preserve order (spec §4.3);
fuel-indexed helper for the chunking recursion. -/
def batchifyAux (n : Nat) : Nat → List α → List (List α)
  | 0, _ => []
  | _, [] => []
  | fuel + 1, x :: xs => (x :: xs.take (n - 1)) :: batchifyAux n fuel (xs.drop (n - 1))

/-- Modelled from the spec: split the drained buffer into ordered batches
of at most `n` events (at least one per batch), preserving order
(spec §4.3). -/
def batchify (n : Nat) (l : List α) : List (List α) :=
  batchifyAux n l.length l

/-- Modelled from the spec: the transport collaborator's DeliveryResult
(spec §6). -/
inductive DeliveryResult
  | accepted
  | rateLimited (retryAfter : Option Nat)
  | clientError (status : Nat) (message : String)
  | serverError (status : Nat) (message : String)
  | networkError

/-- Modelled from the spec: transient failures (network error, 5xx, 429)
are retryable; non-retryable failures are 4xx other than 429 (spec §4.3). -/
def isTransient : DeliveryResult → Bool
  | .accepted => false
  | .rateLimited _ => true
  | .serverError _ _ => true
  | .networkError => true
  | .clientError _ _ => false

/-- Modelled from the spec: the backoff delay is exponential with jitter; a
429 retry-after hint, if present, overrides the computed delay
(spec §4.3). -/
def retryDelay (base attempt jitter : Nat) (hint : Option Nat) : Nat :=
  match hint with
  | some h => h
  | none => base * 2 ^ attempt + jitter

/-- Modelled from the spec: attempt delivery of one batch against a
scripted transport collaborator (`respond i` is the transport result of
attempt `i`); transient failures retry up to the attempt bound, exhausted
retries and non-retryable failures yield a delivery error; on success the
number of attempts used is returned (spec §4.3). -/
def sendBatchWithRetry (respond : Nat → DeliveryResult) :
    Nat → Nat → Except DeliveryError Nat
  | _, 0 => .error { status := none, message := "retries exhausted" }
  | attempt, fuel + 1 =>
      match respond attempt with
      | .accepted => .ok (attempt + 1)
      | .clientError st m => .error { status := some st, message := m }
      | .rateLimited _ => sendBatchWithRetry respond (attempt + 1) fuel
      | .serverError _ _ => sendBatchWithRetry respond (attempt + 1) fuel
      | .networkError => sendBatchWithRetry respond (attempt + 1) fuel

/-- Modelled from the spec: the delivery worker's observable record —
successfully delivered batches, the error objects handed to the caller's
error callback, and the silent error count used when no callback is
registered (spec §4.3, §7). -/
structure WorkerState where
  deliveredBatches : List (List Event)
  errorLog : List DeliveryError
  silentErrors : Nat
deriving DecidableEq

/-- Modelled from the spec: the worker record before any batch is
processed. -/
def emptyWorkerState : WorkerState :=
  { deliveredBatches := [], errorLog := [], silentErrors := 0 }

/-- Modelled from the spec: process one batch — on success the batch is
recorded delivered; on a non-retryable failure or exhausted retries the
batch is dropped and the error is delivered to the error callback if one is
registered, otherwise silently counted; the worker then proceeds
(spec §4.3, §7). -/
def processBatch (hasCallback : Bool) (respond : Nat → DeliveryResult)
    (maxAttempts : Nat) (w : WorkerState) (batch : List Event) : WorkerState :=
  match sendBatchWithRetry respond 0 maxAttempts with
  | .ok _ => { w with deliveredBatches := w.deliveredBatches ++ [batch] }
  | .error e =>
      if hasCallback then { w with errorLog := w.errorLog ++ [e] }
      else { w with silentErrors := w.silentErrors + 1 }

/-- Modelled from the spec: the worker loop draining a sequence of batches,
each with its own scripted transport behaviour; one poisoned batch must
never stall the pipeline (spec §4.3). -/
def workerRun (hasCallback : Bool) (maxAttempts : Nat)
    (batches : List ((Nat → DeliveryResult) × List Event)) : WorkerState :=
  batches.foldl (fun w b => processBatch hasCallback b.1 maxAttempts w b.2)
    emptyWorkerState

/-- Modelled from the spec: an inbound analytics event delivered by the
realtime listener (spec §3). -/
structure InboundEvent where
  name : String
  timestamp : Nat
  sessionId : String
  conversationId : Option String
  originEventId : Option String
  properties : List (String × PropValue)
deriving DecidableEq

/-- Modelled from the spec: inbound stream frames — an analytics event, an
error frame, or the terminal session-ended acknowledgment (spec §6). -/
inductive InboundFrame
  | event (e : InboundEvent)
  | errorFrame (code : Nat) (message : String)
  | sessionEndedAck
deriving DecidableEq

/-- Modelled from the spec: whether a frame is the terminal session-ended
acknowledgment (spec §4.4). -/
def InboundFrame.isAck : InboundFrame → Bool
  | .sessionEndedAck => true
  | _ => false

/-- Modelled from the spec: the listener wait used by `flush` — consume
inbound frames until the session-ended acknowledgment is observed or the
grace budget elapses, whichever first; returns whether the acknowledgment
was observed (spec §4.4, §4.5). -/
def awaitSessionEnded : List InboundFrame → Nat → Bool
  | _, 0 => false
  | [], _ + 1 => false
  | f :: rest, g + 1 => f.isAck || awaitSessionEnded rest g

/-- Modelled from the spec: the result of `flush` — the closed and drained
queue, the batches handed to the transport during the drain, and (when a
listener is active) whether the terminal acknowledgment was observed
(spec §4.5). -/
structure FlushResult where
  queue : DispatchQueue Event
  batches : List (List Event)
  listenerSawAck : Option Bool

/-- Modelled from the spec: close the queue so no further enqueues are
accepted (spec §4.2). -/
def closeQueue (q : DispatchQueue α) : DispatchQueue α :=
  { q with closed := true }

/-- Modelled from the spec: `flush` — close the dispatch queue, let the
worker drain it to empty into ordered batches, and, if a listener is
active, wait for the terminal session-ended frame or the grace timeout
(spec §4.5). -/
def flushModel (q : DispatchQueue Event) (batchSize : Nat)
    (listener : Option (List InboundFrame × Nat)) : FlushResult :=
  let qc := closeQueue q
  { queue := { qc with buffer := [] }
    batches := batchify batchSize qc.buffer
    listenerSawAck := listener.map (fun p => awaitSessionEnded p.1 p.2) }

/-- Modelled from the spec: a Mindlytics user object as returned by the
client-level user calls (README). -/
structure MLUser where
  id : String
  traits : List (String × PropValue)
deriving DecidableEq

/-- Modelled from the spec: the backend's reply to a direct client-level
call (README: the call either returns a user object or fails). -/
inductive BackendResponse
  | ok (user : MLUser)
  | httpError (status : Nat) (message : String)

/-- Modelled from the spec: the `MLHTTPError` raised by client-level calls,
carrying status and message (README). -/
structure MLHTTPError where
  status : Nat
  message : String
deriving DecidableEq

/-- Modelled from the spec: client-level `user_identify` — performs its
backend call directly when awaited; the dispatch queue and the error
callback log are not involved, and a backend failure is returned
synchronously as `MLHTTPError` (README; the `mlsdk` client module is
missing from `src/`). -/
def clientUserIdentify (q : DispatchQueue Event) (errorLog : List DeliveryError)
    (resp : BackendResponse) :
    Except MLHTTPError MLUser × DispatchQueue Event × List DeliveryError :=
  match resp with
  | .ok u => (.ok u, q, errorLog)
  | .httpError st m => (.error { status := st, message := m }, q, errorLog)

/-- Modelled from the spec: client-level `user_alias` — same direct-path
behaviour as `clientUserIdentify` (README). -/
def clientUserAlias (q : DispatchQueue Event) (errorLog : List DeliveryError)
    (resp : BackendResponse) :
    Except MLHTTPError MLUser × DispatchQueue Event × List DeliveryError :=
  match resp with
  | .ok u => (.ok u, q, errorLog)
  | .httpError st m => (.error { status := st, message := m }, q, errorLog)

/-- Modelled from the spec: number of `ConversationStart` events for a
given conversation id in a stream (spec §8). -/
def convStartCount (cid : String) (l : List Event) : Nat :=
  l.countP (fun e => e.kind == .conversationStart && e.conversationId == some cid)

/-- Modelled from the spec: number of `ConversationEnd` events for a given
conversation id in a stream (spec §8). -/
def convEndCount (cid : String) (l : List Event) : Nat :=
  l.countP (fun e => e.kind == .conversationEnd && e.conversationId == some cid)

/-- Modelled from the spec: number of `SessionEnd` events in a stream. -/
def sessionEndCount (l : List Event) : Nat :=
  l.countP (fun e => e.kind == .sessionEnd)

/-- Modelled from the spec: the conversation ids mentioned by
`ConversationStart` or `ConversationEnd` events of a stream (spec §8). -/
def convIdsIn (l : List Event) : List String :=
  l.filterMap (fun e =>
    if e.kind == .conversationStart || e.kind == .conversationEnd then
      e.conversationId
    else none)

/-- Modelled from the spec: well-formed nesting of an event stream handed
to the transport collaborator (spec §8) — the `SessionStart` event precedes
every other event (no `SessionStart` occurs after the head), and once a
`SessionEnd` is present: it is unique and last (so every other event
occurs before it), and every conversation id mentioned by a
`ConversationStart` or `ConversationEnd` has exactly one start and exactly
one matching end in the stream. -/
def wfStream (l : List Event) : Bool :=
  l.tail.all (fun e => e.kind != .sessionStart) &&
  (!(l.any (fun e => e.kind == .sessionEnd)) ||
    (sessionEndCount l == 1 &&
     (match l.getLast? with
      | some e => e.kind == .sessionEnd
      | none => false) &&
     (convIdsIn l).all (fun cid =>
       convStartCount cid l == 1 && convEndCount cid l == 1)))

/-- Modelled from the spec: a distinguishable sample event used to exercise
the dispatch queue. -/
def sampleEvent (n : Nat) : Event :=
  { kind := .track, seq := n, timestamp := 0, sessionId := "s",
    conversationId := none, properties := [], userTraits := [], cost := none }

/-- Modelled from the spec: whether a facade result is a synchronously
raised `DeliveryError` (spec §7 says this must never happen). -/
def isDeliveryErrorResult : Except SdkError SessionState → Bool
  | .error (.deliveryError _) => true
  | _ => false

theorem batchifyAux_flatten {α : Type} (n : Nat) :
    ∀ (fuel : Nat) (l : List α), l.length ≤ fuel →
      (batchifyAux n fuel l).flatten = l := by
  intro fuel
  induction fuel with
  | zero =>
      intro l hl
      have : l = [] := List.length_eq_zero.mp (Nat.le_zero.mp hl)
      simp [this, batchifyAux]
  | succ fuel ih =>
      intro l hl
      cases l with
      | nil => simp [batchifyAux]
      | cons x xs =>
          have hdrop : (xs.drop (n - 1)).length ≤ fuel := by
            simp only [List.length_drop]
            simp only [List.length_cons] at hl
            omega
          simp [batchifyAux, ih _ hdrop, List.take_append_drop]

theorem batchify_flatten {α : Type} (n : Nat) (l : List α) :
    (batchify n l).flatten = l :=
  batchifyAux_flatten n l.length l le_rfl

theorem awaitSessionEnded_eq_any :
    ∀ (fs : List InboundFrame) (g : Nat),
      awaitSessionEnded fs g = (fs.take g).any InboundFrame.isAck := by
  intro fs
  induction fs with
  | nil => intro g; cases g <;> simp [awaitSessionEnded]
  | cons f rest ih =>
      intro g
      cases g with
      | zero => simp [awaitSessionEnded]
      | succ g => simp [awaitSessionEnded, ih g]

/-- C3: for every queue, batch size and optional listener configuration,
`flush` closes the dispatch queue, fully drains it into batches whose
concatenation is exactly the accepted buffer (at-least-once attempted
delivery), leaves nothing further for the transport, rejects any later
enqueue, and its listener wait is exactly "terminal session-ended frame
observed within the grace budget". -/
theorem flush_drains_and_closes (q : DispatchQueue Event) (batchSize : Nat)
    (listener : Option (List InboundFrame × Nat)) :
    (flushModel q batchSize listener).queue.closed = true ∧
    (flushModel q batchSize listener).queue.buffer = [] ∧
    (flushModel q batchSize listener).batches.flatten = q.buffer ∧
    (∀ x : Event, (flushModel q batchSize listener).queue.enqueue x = .rejectedClosed) ∧
    batchify batchSize (flushModel q batchSize listener).queue.buffer = [] ∧
    (flushModel q batchSize listener).listenerSawAck =
      listener.map (fun p => (p.1.take p.2).any InboundFrame.isAck) := by
  refine ⟨rfl, rfl, ?_, ?_, rfl, ?_⟩
  · exact batchify_flatten batchSize q.buffer
  · intro x
    simp [flushModel, closeQueue, DispatchQueue.enqueue]
  · cases listener with
    | none => rfl
    | some p => simp [flushModel, awaitSessionEnded_eq_any]

theorem enqueueList_buffer_sublist {α : Type} :
    ∀ (xs : List α) (q : DispatchQueue α),
      (enqueueList q xs).buffer.Sublist (q.buffer ++ xs) := by
  intro xs
  induction xs with
  | nil => intro q; simp [enqueueList]
  | cons x xs ih =>
      intro q
      have hstep : enqueueList q (x :: xs) = enqueueList (enqueueStep q x) xs := rfl
      rw [hstep]
      by_cases hc : q.closed
      · have h1 : enqueueStep q x = q := by
          simp [enqueueStep, DispatchQueue.enqueue, hc]
        rw [h1]
        refine (ih q).trans ?_
        exact (List.sublist_cons_self x xs).append_left q.buffer
      · by_cases hl : q.buffer.length < q.capacity
        · have h1 : enqueueStep q x = { q with buffer := q.buffer ++ [x] } := by
            simp [enqueueStep, DispatchQueue.enqueue, hc, hl]
          rw [h1]
          refine (ih _).trans ?_
          simp
        · cases hp : q.policy with
          | suspendCaller =>
              have h1 : enqueueStep q x = q := by
                simp [enqueueStep, DispatchQueue.enqueue, hc, hl, hp]
              rw [h1]
              refine (ih q).trans ?_
              exact (List.sublist_cons_self x xs).append_left q.buffer
          | dropOldest =>
              have h1 : enqueueStep q x =
                  { q with buffer := q.buffer.tail ++ [x], dropped := q.dropped + 1 } := by
                simp [enqueueStep, DispatchQueue.enqueue, hc, hl, hp]
              rw [h1]
              refine (ih _).trans ?_
              have h2 : (q.buffer.tail ++ [x]) ++ xs = q.buffer.tail ++ (x :: xs) := by
                simp
              simp only [h2]
              exact (List.tail_sublist q.buffer).append (List.Sublist.refl _)

theorem enqueueList_fits {α : Type} :
    ∀ (xs : List α) (q : DispatchQueue α), q.closed = false →
      q.buffer.length + xs.length ≤ q.capacity →
      enqueueList q xs = { q with buffer := q.buffer ++ xs } ∧
        allAccepted q xs = true := by
  intro xs
  induction xs with
  | nil =>
      intro q h1 h2
      constructor
      · simp [enqueueList]
      · rfl
  | cons x xs ih =>
      intro q h1 h2
      have hlt : q.buffer.length < q.capacity := by
        simp only [List.length_cons] at h2
        omega
      have henq : q.enqueue x = .accepted { q with buffer := q.buffer ++ [x] } := by
        simp [DispatchQueue.enqueue, h1, hlt]
      have h2' : ({ q with buffer := q.buffer ++ [x] } :
          DispatchQueue α).buffer.length + xs.length ≤ q.capacity := by
        simp only [List.length_append, List.length_singleton]
        simp only [List.length_cons] at h2
        omega
      obtain ⟨e1, e2⟩ := ih { q with buffer := q.buffer ++ [x] } h1 h2'
      constructor
      · have hstep : enqueueList q (x :: xs) = enqueueList (enqueueStep q x) xs := rfl
        rw [hstep, show enqueueStep q x = { q with buffer := q.buffer ++ [x] } from by
          simp [enqueueStep, henq], e1]
        simp
      · show allAccepted q (x :: xs) = true
        rw [show allAccepted q (x :: xs) =
            allAccepted { q with buffer := q.buffer ++ [x] } xs from by
          simp [allAccepted, henq]]
        exact e2

theorem allAccepted_append {α : Type} :
    ∀ (xs ys : List α) (q : DispatchQueue α),
      allAccepted q (xs ++ ys) =
        (allAccepted q xs && allAccepted (enqueueList q xs) ys) := by
  intro xs
  induction xs with
  | nil => intro ys q; simp [allAccepted, enqueueList]
  | cons x xs ih =>
      intro ys q
      rcases h : q.enqueue x with q1 | _ | _
      · have hstep : enqueueStep q x = q1 := by simp [enqueueStep, h]
        calc allAccepted q (x :: xs ++ ys) = allAccepted q1 (xs ++ ys) := by
              simp [allAccepted, h]
          _ = (allAccepted q1 xs && allAccepted (enqueueList q1 xs) ys) := ih ys q1
          _ = (allAccepted q (x :: xs) && allAccepted (enqueueList q (x :: xs)) ys) := by
              have h1 : allAccepted q (x :: xs) = allAccepted q1 xs := by
                simp [allAccepted, h]
              have h2 : enqueueList q (x :: xs) = enqueueList q1 xs := by
                show enqueueList (enqueueStep q x) xs = _
                rw [hstep]
              rw [h1, h2]
      · simp [allAccepted, h]
      · simp [allAccepted, h]


theorem enqueueList_append {α : Type} (q : DispatchQueue α) (xs ys : List α) :
    enqueueList q (xs ++ ys) = enqueueList (enqueueList q xs) ys :=
  List.foldl_append _ _ _ _

/-- C8: with capacity K and the drop-oldest policy, enqueuing K+1 events
accepts every enqueue without suspending the caller, the oldest event is
absent from the buffer that reaches the transport, and the recorded
dropped-event count is at least 1. -/
theorem dropOldest_backpressure_drops_oldest (K : Nat) (hK : 1 ≤ K) :
    allAccepted (mkQueue Event K .dropOldest) ((List.range (K + 1)).map sampleEvent) = true ∧
    sampleEvent 0 ∉
      (enqueueList (mkQueue Event K .dropOldest)
        ((List.range (K + 1)).map sampleEvent)).buffer ∧
    1 ≤ (enqueueList (mkQueue Event K .dropOldest)
        ((List.range (K + 1)).map sampleEvent)).dropped := by
  obtain ⟨m, rfl⟩ : ∃ m, K = m + 1 := ⟨K - 1, by omega⟩
  have hsplit : (List.range (m + 1 + 1)).map sampleEvent =
      (List.range (m + 1)).map sampleEvent ++ [sampleEvent (m + 1)] := by
    rw [List.range_succ, List.map_append, List.map_singleton]
  have hcap : (mkQueue Event (m + 1) .dropOldest).buffer.length +
      ((List.range (m + 1)).map sampleEvent).length ≤
      (mkQueue Event (m + 1) .dropOldest).capacity := by
    simp [mkQueue]
  obtain ⟨e1, e2⟩ := enqueueList_fits ((List.range (m + 1)).map sampleEvent)
    (mkQueue Event (m + 1) .dropOldest) rfl hcap
  have hbuf : (enqueueList (mkQueue Event (m + 1) .dropOldest)
      ((List.range (m + 1 + 1)).map sampleEvent)).buffer =
      ((List.range (m + 1)).map sampleEvent).tail ++ [sampleEvent (m + 1)] := by
    rw [hsplit, enqueueList_append, e1]
    simp [enqueueList, enqueueStep, DispatchQueue.enqueue, mkQueue]
  have hdrop : (enqueueList (mkQueue Event (m + 1) .dropOldest)
      ((List.range (m + 1 + 1)).map sampleEvent)).dropped = 1 := by
    rw [hsplit, enqueueList_append, e1]
    simp [enqueueList, enqueueStep, DispatchQueue.enqueue, mkQueue]
  refine ⟨?_, ?_, ?_⟩
  · rw [hsplit, allAccepted_append, e2, e1]
    simp [allAccepted, DispatchQueue.enqueue, mkQueue]
  · rw [hbuf]
    intro hmem
    rw [List.range_succ_eq_map, List.map_cons, List.tail_cons, List.map_map] at hmem
    rcases List.mem_append.mp hmem with h | h
    · rcases List.mem_map.mp h with ⟨i, _, hi⟩
      have hseq := congrArg Event.seq hi
      simp [sampleEvent] at hseq
    · have hsingle : sampleEvent 0 = sampleEvent (m + 1) := by
        simpa using h
      have hseq := congrArg Event.seq hsingle
      simp [sampleEvent] at hseq
  · rw [hdrop]

/-- C8 witness at K = 1. -/
theorem dropOldest_backpressure_drops_oldest_witness :
    1 ≤ 1 ∧
    (allAccepted (mkQueue Event 1 .dropOldest) ((List.range 2).map sampleEvent) = true ∧
     sampleEvent 0 ∉
       (enqueueList (mkQueue Event 1 .dropOldest) ((List.range 2).map sampleEvent)).buffer ∧
     1 ≤ (enqueueList (mkQueue Event 1 .dropOldest) ((List.range 2).map sampleEvent)).dropped) :=
  ⟨le_refl 1, dropOldest_backpressure_drops_oldest 1 (le_refl 1)⟩

/-- C9: emission order equals enqueue order — the concatenation of the
batches the single delivery worker forms from the FIFO buffer is exactly
the buffer, and the buffer is a subsequence of the enqueued events, so no
event overtakes an earlier-enqueued event on the outbound path. -/
theorem emission_preserves_enqueue_order (cap : Nat) (policy : BackpressurePolicy)
    (batchSize : Nat) (xs : List Event) :
    (batchify batchSize (enqueueList (mkQueue Event cap policy) xs).buffer).flatten =
      (enqueueList (mkQueue Event cap policy) xs).buffer ∧
    (enqueueList (mkQueue Event cap policy) xs).buffer.Sublist xs := by
  constructor
  · exact batchify_flatten _ _
  · have h := enqueueList_buffer_sublist xs (mkQueue Event cap policy)
    simpa [mkQueue] using h

/-- C4: a transport collaborator answering NetworkError on the first two
attempts and Accepted on the third results in exactly one successful
delivery of the batch (recorded after 3 attempts) and zero invocations of
the error callback — the worker record is unchanged except for appending
the delivered batch. -/
theorem transient_retry_delivers_once (respond : Nat → DeliveryResult)
    (maxAttempts : Nat) (h0 : respond 0 = .networkError)
    (h1 : respond 1 = .networkError) (h2 : respond 2 = .accepted)
    (hm : 3 ≤ maxAttempts) (w : WorkerState) (batch : List Event)
    (hasCallback : Bool) :
    sendBatchWithRetry respond 0 maxAttempts = .ok 3 ∧
    processBatch hasCallback respond maxAttempts w batch =
      { w with deliveredBatches := w.deliveredBatches ++ [batch] } := by
  obtain ⟨k, rfl⟩ : ∃ k, maxAttempts = k + 3 := ⟨maxAttempts - 3, by omega⟩
  have hsend : sendBatchWithRetry respond 0 (k + 3) = .ok 3 := by
    show sendBatchWithRetry respond 0 ((k + 2) + 1) = .ok 3
    rw [sendBatchWithRetry, h0]
    show sendBatchWithRetry respond 1 ((k + 1) + 1) = .ok 3
    rw [sendBatchWithRetry, h1]
    show sendBatchWithRetry respond 2 (k + 1) = .ok 3
    rw [sendBatchWithRetry, h2]
  refine ⟨hsend, ?_⟩
  simp [processBatch, hsend]

/-- C4 witness: a concrete script failing twice with NetworkError and
accepting on the third attempt, with attempt budget 3. -/
theorem transient_retry_delivers_once_witness :
    ((fun n => if n < 2 then DeliveryResult.networkError else .accepted) 0 =
        DeliveryResult.networkError ∧
     (fun n => if n < 2 then DeliveryResult.networkError else .accepted) 1 =
        DeliveryResult.networkError ∧
     (fun n => if n < 2 then DeliveryResult.networkError else .accepted) 2 =
        DeliveryResult.accepted ∧
     3 ≤ 3) ∧
    (sendBatchWithRetry
        (fun n => if n < 2 then DeliveryResult.networkError else .accepted) 0 3 =
      .ok 3 ∧
     processBatch true
        (fun n => if n < 2 then DeliveryResult.networkError else .accepted) 3
        emptyWorkerState [sampleEvent 0] =
      { emptyWorkerState with deliveredBatches := [[sampleEvent 0]] }) :=
  ⟨⟨rfl, rfl, rfl, le_refl 3⟩,
   transient_retry_delivers_once
     (fun n => if n < 2 then DeliveryResult.networkError else .accepted)
     3 rfl rfl rfl (le_refl 3) emptyWorkerState [sampleEvent 0] true⟩

theorem isDE_bind (x : Except SdkError SessionState)
    (f : SessionState → Except SdkError SessionState)
    (hx : isDeliveryErrorResult x = false)
    (hf : ∀ a, isDeliveryErrorResult (f a) = false) :
    isDeliveryErrorResult (x >>= f) = false := by
  cases x with
  | ok a => simpa [Bind.bind, Except.bind] using hf a
  | error e => simpa [Bind.bind, Except.bind] using hx

theorem isDE_startSessionOp (s : SessionState) (uid : Option String)
    (props : List (String × PropValue)) :
    isDeliveryErrorResult (startSessionOp s uid props) = false := by
  unfold startSessionOp
  split <;> simp [isDeliveryErrorResult]

theorem isDE_ensureSessionStarted (s : SessionState) :
    isDeliveryErrorResult (ensureSessionStarted s) = false := by
  unfold ensureSessionStarted
  split
  · exact isDE_startSessionOp _ _ _
  · simp [isDeliveryErrorResult]
  · simp [isDeliveryErrorResult]

theorem isDE_startConversationCore (s : SessionState) (cid : String)
    (props : List (String × PropValue)) :
    isDeliveryErrorResult (startConversationCore s cid props) = false := by
  unfold startConversationCore
  split
  · split <;> simp [isDeliveryErrorResult]
  · simp [isDeliveryErrorResult]

theorem isDE_ensureConversationStarted (s : SessionState) (cid : String) :
    isDeliveryErrorResult (ensureConversationStarted s cid) = false := by
  unfold ensureConversationStarted
  split
  · split <;> simp [isDeliveryErrorResult]
  · exact isDE_startConversationCore _ _ _

theorem isDE_endConversationOp (s : SessionState) (cid : String)
    (props : List (String × PropValue)) :
    isDeliveryErrorResult (endConversationOp s cid props) = false := by
  unfold endConversationOp
  split
  · split
    · simp [isDeliveryErrorResult]
    · split <;> simp [isDeliveryErrorResult]
  · simp [isDeliveryErrorResult]

theorem isDE_endSessionOp (s : SessionState)
    (props : List (String × PropValue)) :
    isDeliveryErrorResult (endSessionOp s props) = false := by
  unfold endSessionOp
  split <;> simp [isDeliveryErrorResult]

/-- C5, facade half: no facade call ever returns a `DeliveryError`
synchronously. -/
theorem applyCall_no_delivery_error (s : SessionState) (c : Call) :
    isDeliveryErrorResult (applyCall s c) = false := by
  cases c with
  | startSession uid props => exact isDE_startSessionOp s uid props
  | trackEvent props =>
      exact isDE_bind _ _ (isDE_ensureSessionStarted s)
        (fun a => by simp [isDeliveryErrorResult])
  | startConversation cid props =>
      exact isDE_bind _ _ (isDE_ensureSessionStarted s)
        (fun a => isDE_startConversationCore a cid props)
  | trackConversationTurn ocid cost =>
      refine isDE_bind _ _ (isDE_ensureSessionStarted s) (fun a => ?_)
      refine isDE_bind _ _ (isDE_ensureConversationStarted a _) (fun b => ?_)
      simp [isDeliveryErrorResult]
  | endConversation cid props => exact isDE_endConversationOp s cid props
  | endSession props => exact isDE_endSessionOp s props
  | userIdentify uid traits =>
      exact isDE_bind _ _ (isDE_ensureSessionStarted s)
        (fun a => by simp [isDeliveryErrorResult])
  | userAlias newId prevId =>
      exact isDE_bind _ _ (isDE_ensureSessionStarted s)
        (fun a => by simp [isDeliveryErrorResult])

theorem processBatch_counts (hasCallback : Bool) (respond : Nat → DeliveryResult)
    (maxAttempts : Nat) (w : WorkerState) (batch : List Event) :
    (processBatch hasCallback respond maxAttempts w batch).deliveredBatches.length +
      (processBatch hasCallback respond maxAttempts w batch).errorLog.length +
      (processBatch hasCallback respond maxAttempts w batch).silentErrors =
      w.deliveredBatches.length + w.errorLog.length + w.silentErrors + 1 := by
  unfold processBatch
  split
  · simp; omega
  · split <;> simp <;> omega

theorem processBatch_silent_of_callback (respond : Nat → DeliveryResult)
    (maxAttempts : Nat) (w : WorkerState) (batch : List Event) :
    (processBatch true respond maxAttempts w batch).silentErrors = w.silentErrors := by
  unfold processBatch
  split <;> simp

theorem processBatch_errorLog_of_no_callback (respond : Nat → DeliveryResult)
    (maxAttempts : Nat) (w : WorkerState) (batch : List Event) :
    (processBatch false respond maxAttempts w batch).errorLog = w.errorLog := by
  unfold processBatch
  split <;> simp

theorem workerFold_counts (hasCallback : Bool) (maxAttempts : Nat) :
    ∀ (batches : List ((Nat → DeliveryResult) × List Event)) (w : WorkerState),
      (batches.foldl (fun w b => processBatch hasCallback b.1 maxAttempts w b.2)
          w).deliveredBatches.length +
        (batches.foldl (fun w b => processBatch hasCallback b.1 maxAttempts w b.2)
          w).errorLog.length +
        (batches.foldl (fun w b => processBatch hasCallback b.1 maxAttempts w b.2)
          w).silentErrors =
        w.deliveredBatches.length + w.errorLog.length + w.silentErrors +
          batches.length := by
  intro batches
  induction batches with
  | nil => intro w; simp
  | cons b bs ih =>
      intro w
      have h := processBatch_counts hasCallback b.1 maxAttempts w b.2
      calc (bs.foldl _ (processBatch hasCallback b.1 maxAttempts w b.2)).deliveredBatches.length +
            (bs.foldl _ (processBatch hasCallback b.1 maxAttempts w b.2)).errorLog.length +
            (bs.foldl _ (processBatch hasCallback b.1 maxAttempts w b.2)).silentErrors =
          (processBatch hasCallback b.1 maxAttempts w b.2).deliveredBatches.length +
            (processBatch hasCallback b.1 maxAttempts w b.2).errorLog.length +
            (processBatch hasCallback b.1 maxAttempts w b.2).silentErrors + bs.length :=
            ih _
        _ = w.deliveredBatches.length + w.errorLog.length + w.silentErrors +
            (b :: bs).length := by rw [h]; simp; omega

theorem workerFold_silent (maxAttempts : Nat) :
    ∀ (batches : List ((Nat → DeliveryResult) × List Event)) (w : WorkerState),
      (batches.foldl (fun w b => processBatch true b.1 maxAttempts w b.2)
          w).silentErrors = w.silentErrors := by
  intro batches
  induction batches with
  | nil => intro w; simp
  | cons b bs ih =>
      intro w
      rw [List.foldl_cons, ih _, processBatch_silent_of_callback]

theorem workerFold_errorLog (maxAttempts : Nat) :
    ∀ (batches : List ((Nat → DeliveryResult) × List Event)) (w : WorkerState),
      (batches.foldl (fun w b => processBatch false b.1 maxAttempts w b.2)
          w).errorLog = w.errorLog := by
  intro batches
  induction batches with
  | nil => intro w; simp
  | cons b bs ih =>
      intro w
      rw [List.foldl_cons, ih _, processBatch_errorLog_of_no_callback]

/-- C5: a delivery failure is never raised synchronously to the caller of a
facade operation (every facade result is an `InvalidStateError`-style local
error or a success, never a `DeliveryError`), and the worker never stalls:
every batch is either delivered or dropped with its failure surfaced
exactly once — through the error callback when one is registered (no silent
counting), through the silent counter otherwise (no callback
invocations). -/
theorem delivery_failures_never_raised :
    (∀ (s : SessionState) (c : Call),
      isDeliveryErrorResult (applyCall s c) = false) ∧
    (∀ (hasCallback : Bool) (maxAttempts : Nat)
      (batches : List ((Nat → DeliveryResult) × List Event)),
      (workerRun hasCallback maxAttempts batches).deliveredBatches.length +
        (workerRun hasCallback maxAttempts batches).errorLog.length +
        (workerRun hasCallback maxAttempts batches).silentErrors = batches.length ∧
      (if hasCallback then (workerRun hasCallback maxAttempts batches).silentErrors
       else (workerRun hasCallback maxAttempts batches).errorLog.length) = 0) := by
  constructor
  · exact applyCall_no_delivery_error
  · intro hasCallback maxAttempts batches
    constructor
    · have h := workerFold_counts hasCallback maxAttempts batches emptyWorkerState
      simpa [workerRun, emptyWorkerState] using h
    · cases hasCallback with
      | true =>
          have h := workerFold_silent maxAttempts batches emptyWorkerState
          simpa [workerRun, emptyWorkerState] using h
      | false =>
          have h := workerFold_errorLog maxAttempts batches emptyWorkerState
          simpa [workerRun, emptyWorkerState] using h

/-- C10: the client-level `user_identify` and `user_alias` perform their
backend call directly — on backend failure they return `MLHTTPError`
(carrying status and message) synchronously to the caller, and in every
case the dispatch queue and the error-callback log are left untouched, so
the failure is never routed through the queue or the `on_error` path. -/
theorem client_user_calls_direct :
    (∀ (q : DispatchQueue Event) (log : List DeliveryError) (st : Nat) (m : String),
      clientUserIdentify q log (.httpError st m) =
        (.error { status := st, message := m }, q, log)) ∧
    (∀ (q : DispatchQueue Event) (log : List DeliveryError) (u : MLUser),
      clientUserIdentify q log (.ok u) = (.ok u, q, log)) ∧
    (∀ (q : DispatchQueue Event) (log : List DeliveryError) (st : Nat) (m : String),
      clientUserAlias q log (.httpError st m) =
        (.error { status := st, message := m }, q, log)) ∧
    (∀ (q : DispatchQueue Event) (log : List DeliveryError) (u : MLUser),
      clientUserAlias q log (.ok u) = (.ok u, q, log)) ∧
    (∀ (q : DispatchQueue Event) (log : List DeliveryError) (r : BackendResponse),
      (clientUserIdentify q log r).2.1 = q ∧ (clientUserIdentify q log r).2.2 = log ∧
      (clientUserAlias q log r).2.1 = q ∧ (clientUserAlias q log r).2.2 = log) := by
  refine ⟨fun q log st m => rfl, fun q log u => rfl,
    fun q log st m => rfl, fun q log u => rfl, fun q log r => ?_⟩
  cases r <;> exact ⟨rfl, rfl, rfl, rfl⟩

/-- C6: `start_session` on an unstarted facade succeeds and moves the
session to Active, while a second call — and in general any call on a
facade whose session is already Active or Ended — fails synchronously with
`InvalidStateError`. -/
theorem startSession_twice_invalid (s : SessionState) (uid1 uid2 : Option String)
    (p1 p2 : List (String × PropValue)) (h : s.state = .unstarted) :
    ∃ s1, startSessionOp s uid1 p1 = .ok s1 ∧ s1.state = .active ∧
      (∃ m, startSessionOp s1 uid2 p2 = .error (.invalidState m)) ∧
      (∀ t : SessionState, t.state = .active ∨ t.state = .ended →
        ∃ m, startSessionOp t uid2 p2 = .error (.invalidState m)) := by
  have hgen : ∀ t : SessionState, t.state = .active ∨ t.state = .ended →
      ∃ m, startSessionOp t uid2 p2 = .error (.invalidState m) := by
    intro t ht
    refine ⟨"session already started or ended", ?_⟩
    unfold startSessionOp
    rcases ht with ht | ht <;> rw [ht]
  have e1 : startSessionOp s uid1 p1 =
      .ok (({ s with
              state := .active
              userId := uid1.orElse (fun _ => s.userId) }).emit
            .sessionStart none p1 [] none) := by
    unfold startSessionOp
    rw [h]
  refine ⟨_, e1, ?_, ?_, hgen⟩
  · simp [SessionState.emit]
  · exact hgen _ (Or.inl (by simp [SessionState.emit]))

/-- C6 witness on a fresh facade. -/
theorem startSession_twice_invalid_witness :
    (initSession "s").state = .unstarted ∧
    ∃ s1, startSessionOp (initSession "s") none [] = .ok s1 ∧ s1.state = .active ∧
      (∃ m, startSessionOp s1 none [] = .error (.invalidState m)) ∧
      (∀ t : SessionState, t.state = .active ∨ t.state = .ended →
        ∃ m, startSessionOp t none [] = .error (.invalidState m)) :=
  ⟨rfl, startSession_twice_invalid (initSession "s") none none [] [] rfl⟩

theorem endOneConversation_state (s : SessionState) (c : Conversation) :
    (endOneConversation s c).state = s.state := rfl

theorem endOneConversation_sessionId (s : SessionState) (c : Conversation) :
    (endOneConversation s c).sessionId = s.sessionId := rfl

theorem endOneConversation_conversations (s : SessionState) (c : Conversation) :
    (endOneConversation s c).conversations =
      s.conversations.map (fun d =>
        if d.id == c.id then { d with state := .ended, endedAt := some s.clock }
        else d) := rfl

theorem endOneConversation_emitted (s : SessionState) (c : Conversation) :
    (endOneConversation s c).emitted = s.emitted ++
      [{ kind := .conversationEnd, seq := s.nextSeq, timestamp := s.clock,
         sessionId := s.sessionId, conversationId := some c.id,
         properties := [], userTraits := [], cost := none }] := rfl

theorem endAll_spec :
    ∀ (cs : List Conversation) (s : SessionState),
      (endAllConversations s cs).state = s.state ∧
      (endAllConversations s cs).sessionId = s.sessionId ∧
      (endAllConversations s cs).conversations.map Conversation.id =
        s.conversations.map Conversation.id ∧
      (∃ suffix, (endAllConversations s cs).emitted = s.emitted ++ suffix ∧
        suffix.map (fun e => (e.kind, e.conversationId)) =
          cs.map (fun c => (EventKind.conversationEnd, some c.id))) ∧
      (∀ d ∈ (endAllConversations s cs).conversations,
        ∃ d0 ∈ s.conversations, d0.id = d.id ∧
          (d.state = .ended ∨ d.state = d0.state) ∧
          ((∃ x ∈ cs, x.id = d0.id) → d.state = .ended)) := by
  intro cs
  induction cs with
  | nil =>
      intro s
      refine ⟨rfl, rfl, rfl, ⟨[], by simp [endAllConversations], rfl⟩, ?_⟩
      intro d hd
      exact ⟨d, hd, rfl, Or.inr rfl, by simp⟩
  | cons c cs ih =>
      intro s
      have hfold : endAllConversations s (c :: cs) =
          endAllConversations (endOneConversation s c) cs := rfl
      obtain ⟨q1, q2, q3, ⟨suf, hsuf, hproj⟩, q5⟩ := ih (endOneConversation s c)
      rw [hfold]
      refine ⟨?_, ?_, ?_, ?_, ?_⟩
      · rw [q1, endOneConversation_state]
      · rw [q2, endOneConversation_sessionId]
      · rw [q3, endOneConversation_conversations, List.map_map]
        refine List.map_congr_left ?_
        intro d _
        by_cases hid : d.id == c.id <;> simp [Function.comp, hid]
      · refine ⟨{ kind := .conversationEnd, seq := s.nextSeq, timestamp := s.clock,
                  sessionId := s.sessionId, conversationId := some c.id,
                  properties := [], userTraits := [], cost := none } :: suf, ?_, ?_⟩
        · rw [hsuf, endOneConversation_emitted]
          simp
        · simp [hproj]
      · intro d hd
        obtain ⟨d1, hd1, hid1, hst1, hcond1⟩ := q5 d hd
        rw [endOneConversation_conversations] at hd1
        obtain ⟨d0, hd0, hd0eq⟩ := List.mem_map.mp hd1
        have hidpres : d1.id = d0.id := by
          rw [← hd0eq]
          by_cases hid : d0.id == c.id <;> simp [hid]
        refine ⟨d0, hd0, by rw [← hidpres, hid1], ?_, ?_⟩
        · rcases hst1 with hst1 | hst1
          · exact Or.inl hst1
          · rw [← hd0eq] at hst1
            by_cases hid : d0.id == c.id
            · simp [hid] at hst1
              exact Or.inl hst1
            · simp [hid] at hst1
              exact Or.inr hst1
        · rintro ⟨x, hx, hxid⟩
          rcases List.mem_cons.mp hx with rfl | hx
          · have hmatch : d0.id == x.id := by
              simp [hxid]
            have hd1ended : d1.state = .ended := by
              rw [← hd0eq]
              simp [hmatch]
            rcases hst1 with hst1 | hst1
            · exact hst1
            · rw [hst1, hd1ended]
          · refine hcond1 ⟨x, hx, ?_⟩
            rw [hxid, hidpres]

/-- C2: ending an Active session whose still-open conversations number N
emits exactly N conversation-end events, one per open conversation in
start order, immediately followed by exactly one session-end event, and
leaves the session and all its conversations in the Ended state. -/
theorem endSession_closes_open_conversations (s : SessionState)
    (props : List (String × PropValue)) (h : s.state = .active)
    (hconvs : ∀ c ∈ s.conversations, c.state = .active ∨ c.state = .ended) :
    ∃ s1, endSessionOp s props = .ok s1 ∧
      (s1.emitted.drop s.emitted.length).map (fun e => (e.kind, e.conversationId)) =
        (s.conversations.filter (fun c => c.state == LifeState.active)).map
          (fun c => (EventKind.conversationEnd, some c.id)) ++
          [(EventKind.sessionEnd, none)] ∧
      s1.state = .ended ∧
      ∀ c ∈ s1.conversations, c.state = .ended := by
  have hop : endSessionOp s props = .ok
      (({ endAllConversations s
            (s.conversations.filter (fun c => c.state == LifeState.active)) with
          state := .ended }).emit .sessionEnd none props [] none) := by
    unfold endSessionOp
    rw [h]
  obtain ⟨q1, q2, q3, ⟨suf, hsuf, hproj⟩, q5⟩ :=
    endAll_spec (s.conversations.filter (fun c => c.state == LifeState.active)) s
  refine ⟨_, hop, ?_, ?_, ?_⟩
  · have hemit : (({ endAllConversations s
          (s.conversations.filter (fun c => c.state == LifeState.active)) with
        state := .ended }).emit .sessionEnd none props [] none).emitted =
        s.emitted ++ (suf ++
          [{ kind := .sessionEnd
             seq := (endAllConversations s
               (s.conversations.filter (fun c => c.state == LifeState.active))).nextSeq
             timestamp := (endAllConversations s
               (s.conversations.filter (fun c => c.state == LifeState.active))).clock
             sessionId := (endAllConversations s
               (s.conversations.filter (fun c => c.state == LifeState.active))).sessionId
             conversationId := none
             properties := props
             userTraits := []
             cost := none }]) := by
      simp [SessionState.emit, hsuf]
    rw [hemit, List.drop_left, List.map_append, hproj]
    simp
  · simp [SessionState.emit]
  · intro c hc
    have hc2 : c ∈ (endAllConversations s
        (s.conversations.filter (fun c => c.state == LifeState.active))).conversations := by
      simpa [SessionState.emit] using hc
    obtain ⟨d0, hd0, hid0, hst0, hcond0⟩ := q5 c hc2
    rcases hconvs d0 hd0 with hact | hend
    · exact hcond0 ⟨d0, List.mem_filter.mpr ⟨hd0, by simp [hact]⟩, rfl⟩
    · rcases hst0 with h1 | h1
      · exact h1
      · rw [h1, hend]

/-- Modelled from the spec: a small started session with one open
conversation, used to exercise `end_session`. -/
def sampleActiveSession : SessionState :=
  { sessionId := "sess"
    userId := none
    deviceId := none
    createdAt := 0
    state := .active
    conversations :=
      [{ id := "c1"
         sessionId := "sess"
         startedAt := 0
         endedAt := none
         turnCount := 0
         state := .active }]
    nextSeq := 0
    clock := 0
    emitted := [] }

/-- C2 witness: ending `sampleActiveSession`. -/
theorem endSession_closes_open_conversations_witness :
    (sampleActiveSession.state = .active ∧
     ∀ c ∈ sampleActiveSession.conversations,
       c.state = .active ∨ c.state = .ended) ∧
    ∃ s1, endSessionOp sampleActiveSession [] = .ok s1 ∧
      (s1.emitted.drop sampleActiveSession.emitted.length).map
          (fun e => (e.kind, e.conversationId)) =
        (sampleActiveSession.conversations.filter
            (fun c => c.state == LifeState.active)).map
          (fun c => (EventKind.conversationEnd, some c.id)) ++
          [(EventKind.sessionEnd, none)] ∧
      s1.state = .ended ∧
      ∀ c ∈ s1.conversations, c.state = .ended :=
  ⟨⟨rfl, by decide⟩,
   endSession_closes_open_conversations sampleActiveSession [] rfl (by decide)⟩

/-- C7: on an Active session with no conversations, a turn tracked with no
explicit conversation id auto-creates exactly one default conversation
whose identifier is the deterministic function of the session id; the
internal ensure-started operation is idempotent on it, and a second
implicit turn reuses the same conversation — no second conversation and no
second conversation-start event are ever created. -/
theorem implicit_conversation_singleton (s : SessionState)
    (h : s.state = .active) (hc : s.conversations = [])
    (cost1 cost2 : Option CostRecord) :
    ∃ s1 s2,
      trackConversationTurnOp s none cost1 = .ok s1 ∧
      s1.conversations.map Conversation.id = [defaultConversationId s.sessionId] ∧
      ensureConversationStarted s1 (defaultConversationId s.sessionId) = .ok s1 ∧
      trackConversationTurnOp s1 none cost2 = .ok s2 ∧
      s2.conversations.map Conversation.id = [defaultConversationId s.sessionId] ∧
      convStartCount (defaultConversationId s.sessionId) s2.emitted =
        convStartCount (defaultConversationId s.sessionId) s.emitted + 1 := by
  have e0 : ensureSessionStarted s = .ok s := by
    unfold ensureSessionStarted
    rw [h]
  have e1 : ensureConversationStarted s (defaultConversationId s.sessionId) =
      .ok (({ s with conversations :=
              s.conversations ++
                [newConversation s.sessionId (defaultConversationId s.sessionId)
                  s.clock] }).emit
            .conversationStart (some (defaultConversationId s.sessionId)) [] [] none) := by
    unfold ensureConversationStarted
    rw [hc]
    show startConversationCore s (defaultConversationId s.sessionId) [] = _
    unfold startConversationCore
    rw [h, hc]
    simp
  have E1 : trackConversationTurnOp s none cost1 =
      .ok ((bumpTurn
          (({ s with conversations :=
                s.conversations ++
                  [newConversation s.sessionId (defaultConversationId s.sessionId)
                    s.clock] }).emit
              .conversationStart (some (defaultConversationId s.sessionId)) [] [] none)
          (defaultConversationId s.sessionId)).emit
        .conversationTurn (some (defaultConversationId s.sessionId)) [] [] cost1) := by
    unfold trackConversationTurnOp
    rw [e0]
    show (ensureConversationStarted s (defaultConversationId s.sessionId) >>= _) = _
    rw [e1]
    rfl
  have HS1 : ∃ S1, trackConversationTurnOp s none cost1 = .ok S1 ∧
      S1.conversations =
        [{ id := defaultConversationId s.sessionId
           sessionId := s.sessionId
           startedAt := s.clock
           endedAt := none
           turnCount := 1
           state := .active }] ∧
      S1.state = .active ∧ S1.sessionId = s.sessionId ∧
      convStartCount (defaultConversationId s.sessionId) S1.emitted =
        convStartCount (defaultConversationId s.sessionId) s.emitted + 1 := by
    refine ⟨_, E1, ?_, ?_, ?_, ?_⟩ <;>
      simp [hc, h, bumpTurn, SessionState.emit, newConversation,
        defaultConversationId, convStartCount, List.countP_append, List.countP_cons]
  obtain ⟨S1, E1x, f1, f3, f4, f2⟩ := HS1
  have idem : ensureConversationStarted S1 (defaultConversationId s.sessionId) =
      .ok S1 := by
    unfold ensureConversationStarted
    rw [f1]
    simp [defaultConversationId]
  have E2 : trackConversationTurnOp S1 none cost2 =
      .ok ((bumpTurn S1 (defaultConversationId s.sessionId)).emit
        .conversationTurn (some (defaultConversationId s.sessionId)) [] [] cost2) := by
    have e0x : ensureSessionStarted S1 = .ok S1 := by
      unfold ensureSessionStarted
      rw [f3]
    unfold trackConversationTurnOp
    rw [e0x]
    show (ensureConversationStarted S1 (defaultConversationId S1.sessionId) >>= _) = _
    rw [f4, idem]
    rfl
  refine ⟨S1, _, E1x, ?_, idem, E2, ?_, ?_⟩
  · rw [f1]
    simp [defaultConversationId]
  · simp [SessionState.emit, bumpTurn, f1, defaultConversationId]
  · have : convStartCount (defaultConversationId s.sessionId)
        ((bumpTurn S1 (defaultConversationId s.sessionId)).emit
          .conversationTurn (some (defaultConversationId s.sessionId)) [] [] cost2).emitted =
        convStartCount (defaultConversationId s.sessionId) S1.emitted := by
      simp [SessionState.emit, bumpTurn, convStartCount, List.countP_append,
        List.countP_cons]
    rw [this, f2]

/-- Modelled from the spec: a started session with no conversations yet,
used to exercise the implicit default conversation. -/
def sampleEmptyActiveSession : SessionState :=
  { initSession "sess" with state := .active }

/-- C7 witness on a started session with no conversations. -/
theorem implicit_conversation_singleton_witness :
    (sampleEmptyActiveSession.state = .active ∧
     sampleEmptyActiveSession.conversations = []) ∧
    ∃ s1 s2,
      trackConversationTurnOp sampleEmptyActiveSession none none = .ok s1 ∧
      s1.conversations.map Conversation.id =
        [defaultConversationId sampleEmptyActiveSession.sessionId] ∧
      ensureConversationStarted s1
        (defaultConversationId sampleEmptyActiveSession.sessionId) = .ok s1 ∧
      trackConversationTurnOp s1 none none = .ok s2 ∧
      s2.conversations.map Conversation.id =
        [defaultConversationId sampleEmptyActiveSession.sessionId] ∧
      convStartCount (defaultConversationId sampleEmptyActiveSession.sessionId)
          s2.emitted =
        convStartCount (defaultConversationId sampleEmptyActiveSession.sessionId)
          sampleEmptyActiveSession.emitted + 1 :=
  ⟨⟨rfl, rfl⟩,
   implicit_conversation_singleton sampleEmptyActiveSession rfl rfl none none⟩

/-- Modelled from the spec: no `SessionStart` event occurs after the head
of a stream — the formal reading of "`SessionStart` precedes all other
events for that session id" (spec §8). -/
def noLateStart (l : List Event) : Prop :=
  ∀ e ∈ l.tail, e.kind ≠ .sessionStart

/-- Modelled from the spec: the reachable-state invariant tying the facade
state to the stream of events already handed to the Dispatch Queue
(spec §3 invariants, §4.1, §8). -/
structure SessionInv (s : SessionState) : Prop where
  ids_nodup : (s.conversations.map Conversation.id).Nodup
  conv_states : ∀ c ∈ s.conversations, c.state = .active ∨ c.state = .ended
  no_late_start : noLateStart s.emitted
  unstarted_empty : s.state = .unstarted → s.emitted = [] ∧ s.conversations = []
  end_count : sessionEndCount s.emitted = if s.state = .ended then 1 else 0
  end_last : s.state = .ended →
    s.emitted.getLast?.map Event.kind = some .sessionEnd
  conv_start : ∀ cid, convStartCount cid s.emitted =
    if cid ∈ s.conversations.map Conversation.id then 1 else 0
  conv_end : ∀ cid, convEndCount cid s.emitted =
    if s.conversations.any (fun c => c.id == cid && c.state == LifeState.ended)
    then 1 else 0
  ended_convs : s.state = .ended → ∀ c ∈ s.conversations, c.state = .ended

theorem noLateStart_append (l m : List Event) (hl : noLateStart l)
    (hm : ∀ e ∈ m, e.kind ≠ .sessionStart) : noLateStart (l ++ m) := by
  cases l with
  | nil =>
      intro e he
      exact hm e (List.mem_of_mem_tail (by simpa using he))
  | cons a l =>
      intro e he
      rcases List.mem_append.mp (by simpa using he) with h | h
      · exact hl e (by simpa using h)
      · exact hm e h

theorem countP_id_unique (q : Conversation → Bool) :
    ∀ (l : List Conversation), (l.map Conversation.id).Nodup → ∀ cid : String,
      l.countP (fun c => c.id == cid && q c) =
        if l.any (fun c => c.id == cid && q c) then 1 else 0 := by
  intro l
  induction l with
  | nil => intro _ cid; simp
  | cons c l ih =>
      intro hnd cid
      simp only [List.map_cons, List.nodup_cons] at hnd
      obtain ⟨hni, hnd2⟩ := hnd
      by_cases hc : (c.id == cid) = true
      · have hrest : ∀ d ∈ l, ¬(d.id == cid && q d) = true := by
          intro d hd hcon
          simp only [Bool.and_eq_true, beq_iff_eq] at hcon hc
          refine hni ?_
          rw [hc, ← hcon.1]
          exact List.mem_map_of_mem Conversation.id hd
        have hrest0 : l.countP (fun d => d.id == cid && q d) = 0 :=
          List.countP_eq_zero.mpr hrest
        have hrestany : l.any (fun d => d.id == cid && q d) = false := by
          rw [List.any_eq_false]
          exact hrest
        by_cases hq : q c = true <;>
          simp [List.countP_cons, List.any_cons, hc, hq, hrest0, hrestany]
      · simp [List.countP_cons, List.any_cons, hc, ih hnd2 cid]

theorem emit_state (s : SessionState) (k : EventKind) (cid : Option String)
    (props traits : List (String × PropValue)) (cost : Option CostRecord) :
    (s.emit k cid props traits cost).state = s.state := rfl

theorem emit_conversations (s : SessionState) (k : EventKind) (cid : Option String)
    (props traits : List (String × PropValue)) (cost : Option CostRecord) :
    (s.emit k cid props traits cost).conversations = s.conversations := rfl

theorem emit_sessionId (s : SessionState) (k : EventKind) (cid : Option String)
    (props traits : List (String × PropValue)) (cost : Option CostRecord) :
    (s.emit k cid props traits cost).sessionId = s.sessionId := rfl

theorem emit_emitted (s : SessionState) (k : EventKind) (cid : Option String)
    (props traits : List (String × PropValue)) (cost : Option CostRecord) :
    (s.emit k cid props traits cost).emitted = s.emitted ++
      [{ kind := k, seq := s.nextSeq, timestamp := s.clock,
         sessionId := s.sessionId, conversationId := cid,
         properties := props, userTraits := traits, cost := cost }] := rfl

theorem sessionInv_emit_plain {s : SessionState} (hInv : SessionInv s)
    (hs : s.state = .active) (k : EventKind) (cid : Option String)
    (props traits : List (String × PropValue)) (cost : Option CostRecord)
    (h1 : k ≠ .sessionStart) (h2 : k ≠ .sessionEnd)
    (h3 : k ≠ .conversationStart) (h4 : k ≠ .conversationEnd) :
    SessionInv (s.emit k cid props traits cost) := by
  obtain ⟨i1, i2, i3, i4, i5, i6, i7, i8, i9⟩ := hInv
  refine ⟨?_, ?_, ?_, ?_, ?_, ?_, ?_, ?_, ?_⟩
  · rw [emit_conversations]; exact i1
  · rw [emit_conversations]; exact i2
  · rw [emit_emitted]
    refine noLateStart_append _ _ i3 ?_
    intro e he
    simp only [List.mem_singleton] at he
    rw [he]
    exact h1
  · rw [emit_state, hs]
    intro hcon
    exact absurd hcon (by simp)
  · rw [emit_state, emit_emitted, hs]
    simp only [sessionEndCount, List.countP_append, List.countP_cons,
      List.countP_nil] at *
    rw [hs] at i5
    simp [i5, h2]
  · rw [emit_state, hs]
    intro hcon
    exact absurd hcon (by simp)
  · intro cid2
    rw [emit_conversations, emit_emitted]
    simp only [convStartCount, List.countP_append, List.countP_cons,
      List.countP_nil] at *
    simp [i7 cid2, h3]
  · intro cid2
    rw [emit_conversations, emit_emitted]
    simp only [convEndCount, List.countP_append, List.countP_cons,
      List.countP_nil] at *
    simp [i8 cid2, h4]
  · rw [emit_state, hs]
    intro hcon
    exact absurd hcon (by simp)

theorem sessionInv_startSessionOp {s s1 : SessionState} (hInv : SessionInv s)
    (uid : Option String) (props : List (String × PropValue))
    (hok : startSessionOp s uid props = .ok s1) :
    SessionInv s1 ∧ s1.state = .active := by
  unfold startSessionOp at hok
  rcases hst : s.state with u | a | e <;> rw [hst] at hok
  case active => exact absurd hok (by simp)
  case ended => exact absurd hok (by simp)
  case unstarted =>
  obtain ⟨hemp, hcon⟩ := hInv.unstarted_empty hst
  simp only [Except.ok.injEq] at hok
  subst hok
  constructor
  · refine ⟨?_, ?_, ?_, ?_, ?_, ?_, ?_, ?_, ?_⟩
    · simp [emit_conversations, hcon]
    · simp [emit_conversations, hcon]
    · rw [emit_emitted, hemp]
      intro e he
      simp at he
    · rw [emit_state]
      intro hx
      exact absurd hx (by simp)
    · rw [emit_state, emit_emitted, hemp]
      simp [sessionEndCount, List.countP_cons]
    · rw [emit_state]
      intro hx
      exact absurd hx (by simp)
    · intro cid2
      rw [emit_conversations, emit_emitted, hemp]
      simp [convStartCount, List.countP_cons, hcon]
    · intro cid2
      rw [emit_conversations, emit_emitted, hemp]
      simp [convEndCount, List.countP_cons, hcon]
    · rw [emit_state]
      intro hx
      exact absurd hx (by simp)
  · rw [emit_state]

theorem sessionInv_ensureSessionStarted {s s1 : SessionState}
    (hInv : SessionInv s) (hok : ensureSessionStarted s = .ok s1) :
    SessionInv s1 ∧ s1.state = .active := by
  unfold ensureSessionStarted at hok
  rcases hst : s.state with u | a | e <;> rw [hst] at hok
  case unstarted => exact sessionInv_startSessionOp hInv none [] hok
  case active =>
      simp only [Except.ok.injEq] at hok
      subst hok
      exact ⟨hInv, hst⟩
  case ended => exact absurd hok (by simp)

theorem sessionEndCount_append_single (l : List Event) (e : Event) :
    sessionEndCount (l ++ [e]) =
      sessionEndCount l + (if e.kind == .sessionEnd then 1 else 0) := by
  simp [sessionEndCount, List.countP_append, List.countP_cons]

theorem convStartCount_append_single (cid : String) (l : List Event) (e : Event) :
    convStartCount cid (l ++ [e]) =
      convStartCount cid l +
        (if e.kind == .conversationStart && e.conversationId == some cid
         then 1 else 0) := by
  simp [convStartCount, List.countP_append, List.countP_cons]

theorem convEndCount_append_single (cid : String) (l : List Event) (e : Event) :
    convEndCount cid (l ++ [e]) =
      convEndCount cid l +
        (if e.kind == .conversationEnd && e.conversationId == some cid
         then 1 else 0) := by
  simp [convEndCount, List.countP_append, List.countP_cons]

theorem sessionInv_startConversationCore {s s1 : SessionState}
    (hInv : SessionInv s) (cid : String) (props : List (String × PropValue))
    (hok : startConversationCore s cid props = .ok s1) :
    SessionInv s1 ∧ s1.state = .active := by
  obtain ⟨i1, i2, i3, i4, i5, i6, i7, i8, i9⟩ := hInv
  unfold startConversationCore at hok
  rcases hst : s.state with u | a | e <;> rw [hst] at hok
  case unstarted => exact absurd hok (by simp)
  case ended => exact absurd hok (by simp)
  case active =>
  by_cases hany : s.conversations.any (fun c => c.id == cid) = true
  · rw [hany] at hok
    exact absurd hok (by simp)
  · rw [Bool.not_eq_true] at hany
    rw [hany] at hok
    simp only [Bool.false_eq_true, if_false, Except.ok.injEq] at hok
    subst hok
    have hnotin : cid ∉ s.conversations.map Conversation.id := by
      intro hmem
      obtain ⟨c, hc, hcid⟩ := List.mem_map.mp hmem
      have h2 := List.any_eq_false.mp hany c hc
      simp [hcid] at h2
    have i5x : sessionEndCount s.emitted = 0 := by
      rw [i5, hst]
      simp
    refine ⟨⟨?_, ?_, ?_, ?_, ?_, ?_, ?_, ?_, ?_⟩, ?_⟩
    · rw [emit_conversations]
      simp only [List.map_append, newConversation, List.map_cons, List.map_nil]
      rw [List.nodup_append]
      refine ⟨i1, by simp, ?_⟩
      intro a ha hb
      simp only [List.mem_singleton] at hb
      subst hb
      exact hnotin ha
    · rw [emit_conversations]
      intro c hc
      rcases List.mem_append.mp hc with h | h
      · exact i2 c h
      · simp only [List.mem_singleton] at h
        subst h
        exact Or.inl rfl
    · rw [emit_emitted]
      refine noLateStart_append _ _ i3 ?_
      intro e he
      simp only [List.mem_singleton] at he
      rw [he]
      simp
    · intro hcon
      simp [SessionState.emit] at hcon
    · rw [emit_emitted]
      show sessionEndCount (s.emitted ++ [_]) = _
      rw [sessionEndCount_append_single, i5x]
      simp [SessionState.emit]
    · intro hcon
      simp [SessionState.emit] at hcon
    · intro cid2
      rw [emit_conversations, emit_emitted]
      show convStartCount cid2 (s.emitted ++ [_]) = _
      rw [convStartCount_append_single, i7 cid2]
      simp only [List.map_append, newConversation, List.map_cons, List.map_nil]
      by_cases hcid2 : cid2 = cid
      · subst hcid2
        simp [hnotin]
      · simp [List.mem_append, hcid2, Ne.symm hcid2]
    · intro cid2
      rw [emit_conversations, emit_emitted]
      show convEndCount cid2 (s.emitted ++ [_]) = _
      rw [convEndCount_append_single, i8 cid2]
      simp [List.any_append, newConversation]
    · intro hcon
      simp [SessionState.emit] at hcon
    · simp [SessionState.emit]

theorem sessionInv_ensureConversationStarted {s s1 : SessionState}
    (hInv : SessionInv s) (hs : s.state = .active) (cid : String)
    (hok : ensureConversationStarted s cid = .ok s1) :
    SessionInv s1 ∧ s1.state = .active := by
  unfold ensureConversationStarted at hok
  rcases hfind : s.conversations.find? (fun c => c.id == cid) with _ | c <;>
    rw [hfind] at hok
  · exact sessionInv_startConversationCore hInv cid [] hok
  · by_cases hcs : (c.state == LifeState.active) = true
    · simp only [hcs, if_true, Except.ok.injEq] at hok
      subst hok
      exact ⟨hInv, hs⟩
    · rw [Bool.not_eq_true] at hcs
      simp only [hcs, Bool.false_eq_true, if_false] at hok
      exact absurd hok (by simp)

theorem list_any_congr {α : Type} {p q : α → Bool} :
    ∀ (l : List α), (∀ a ∈ l, p a = q a) → l.any p = l.any q := by
  intro l
  induction l with
  | nil => intro _; rfl
  | cons a l ih =>
      intro h
      simp only [List.any_cons, h a (by simp),
        ih (fun b hb => h b (by simp [hb]))]

theorem bumpTurn_conversations_id (s : SessionState) (cid : String) :
    (bumpTurn s cid).conversations.map Conversation.id =
      s.conversations.map Conversation.id := by
  simp only [bumpTurn, List.map_map]
  refine List.map_congr_left ?_
  intro c _
  by_cases h : (c.id == cid) = true <;> simp [Function.comp, h]

theorem sessionInv_bumpTurn {s : SessionState} (hInv : SessionInv s)
    (cid : String) : SessionInv (bumpTurn s cid) := by
  obtain ⟨i1, i2, i3, i4, i5, i6, i7, i8, i9⟩ := hInv
  have hstate : (bumpTurn s cid).state = s.state := rfl
  have hemit : (bumpTurn s cid).emitted = s.emitted := rfl
  have hany : ∀ cid2 : String,
      ((bumpTurn s cid).conversations.any
        (fun c => c.id == cid2 && c.state == LifeState.ended)) =
      (s.conversations.any
        (fun c => c.id == cid2 && c.state == LifeState.ended)) := by
    intro cid2
    simp only [bumpTurn, List.any_map]
    refine list_any_congr _ ?_
    intro c _
    by_cases h : (c.id == cid) = true <;> simp [Function.comp, h]
  refine ⟨?_, ?_, ?_, ?_, ?_, ?_, ?_, ?_, ?_⟩
  · rw [bumpTurn_conversations_id]
    exact i1
  · intro c hc
    simp only [bumpTurn, List.mem_map] at hc
    obtain ⟨c0, hc0, hc0eq⟩ := hc
    rcases i2 c0 hc0 with h | h <;>
      by_cases hid : (c0.id == cid) = true <;>
      rw [← hc0eq] <;> simp [hid, h]
  · rw [hemit]
    exact i3
  · rw [hstate]
    intro hu
    obtain ⟨he, hc⟩ := i4 hu
    refine ⟨?_, ?_⟩
    · rw [hemit, he]
    · simp [bumpTurn, hc]
  · rw [hstate, hemit]
    exact i5
  · rw [hstate, hemit]
    exact i6
  · intro cid2
    rw [hemit, bumpTurn_conversations_id]
    exact i7 cid2
  · intro cid2
    rw [hemit, hany cid2]
    exact i8 cid2
  · rw [hstate]
    intro hend c hc
    simp only [bumpTurn, List.mem_map] at hc
    obtain ⟨c0, hc0, hc0eq⟩ := hc
    have := i9 hend c0 hc0
    rw [← hc0eq]
    by_cases hid : (c0.id == cid) = true <;> simp [hid, this]

theorem except_bind_ok {ε α β : Type} (x : Except ε α) (f : α → Except ε β)
    (b : β) (h : (x >>= f) = .ok b) : ∃ a, x = .ok a ∧ f a = .ok b := by
  cases x with
  | ok a => exact ⟨a, rfl, by simpa [Bind.bind, Except.bind] using h⟩
  | error e => simp [Bind.bind, Except.bind] at h

theorem setConversationEnded_state (s : SessionState) (cid : String) :
    (setConversationEnded s cid).state = s.state := rfl

theorem setConversationEnded_emitted (s : SessionState) (cid : String) :
    (setConversationEnded s cid).emitted = s.emitted := rfl

theorem setConversationEnded_conversations (s : SessionState) (cid : String) :
    (setConversationEnded s cid).conversations =
      s.conversations.map (fun c =>
        if c.id == cid then { c with state := .ended, endedAt := some s.clock }
        else c) := rfl

theorem setConversationEnded_ids (s : SessionState) (cid : String) :
    (setConversationEnded s cid).conversations.map Conversation.id =
      s.conversations.map Conversation.id := by
  rw [setConversationEnded_conversations, List.map_map]
  refine List.map_congr_left ?_
  intro c _
  by_cases h : (c.id == cid) = true <;> simp [Function.comp, h]

theorem sessionInv_endConversationOp {s s1 : SessionState}
    (hInv : SessionInv s) (cid : String) (props : List (String × PropValue))
    (hok : endConversationOp s cid props = .ok s1) :
    SessionInv s1 ∧ s1.state = .active := by
  obtain ⟨i1, i2, i3, i4, i5, i6, i7, i8, i9⟩ := hInv
  unfold endConversationOp at hok
  rcases hst : s.state with u | a | e <;> rw [hst] at hok
  case unstarted => exact absurd hok (by simp)
  case ended => exact absurd hok (by simp)
  case active =>
  rcases hfind : s.conversations.find? (fun c => c.id == cid) with _ | c <;>
    rw [hfind] at hok
  · exact absurd hok (by simp)
  · by_cases hcs : (c.state == LifeState.ended) = true
    · simp only [hcs, if_true] at hok
      exact absurd hok (by simp)
    · rw [Bool.not_eq_true] at hcs
      simp only [hcs, Bool.false_eq_true, if_false, Except.ok.injEq] at hok
      subst hok
      have hcmem : c ∈ s.conversations := List.mem_of_find?_eq_some hfind
      have hcid : c.id = cid := by
        have := List.find?_some hfind
        rwa [beq_iff_eq] at this
      have hcact : c.state = .active := by
        rcases i2 c hcmem with h | h
        · exact h
        · rw [h] at hcs
          simp at hcs
      have i5x : sessionEndCount s.emitted = 0 := by
        rw [i5, hst]
        simp
      refine ⟨⟨?_, ?_, ?_, ?_, ?_, ?_, ?_, ?_, ?_⟩, ?_⟩
      · rw [emit_conversations, setConversationEnded_ids]
        exact i1
      · rw [emit_conversations, setConversationEnded_conversations]
        intro d hd
        obtain ⟨d0, hd0, hd0eq⟩ := List.mem_map.mp hd
        rcases i2 d0 hd0 with h | h <;>
          by_cases hid : (d0.id == cid) = true <;>
          rw [← hd0eq] <;> simp [hid, h]
      · rw [emit_emitted, setConversationEnded_emitted]
        refine noLateStart_append _ _ i3 ?_
        intro e he
        simp only [List.mem_singleton] at he
        rw [he]
        simp
      · intro hcon
        rw [emit_state, setConversationEnded_state, hst] at hcon
        exact absurd hcon (by simp)
      · rw [emit_state, emit_emitted, setConversationEnded_state,
          setConversationEnded_emitted, hst]
        show sessionEndCount (s.emitted ++ [_]) = _
        rw [sessionEndCount_append_single, i5x]
        simp
      · intro hcon
        rw [emit_state, setConversationEnded_state, hst] at hcon
        exact absurd hcon (by simp)
      · intro cid2
        rw [emit_conversations, emit_emitted, setConversationEnded_ids,
          setConversationEnded_emitted]
        show convStartCount cid2 (s.emitted ++ [_]) = _
        rw [convStartCount_append_single, i7 cid2]
        simp
      · intro cid2
        rw [emit_conversations, emit_emitted, setConversationEnded_conversations,
          setConversationEnded_emitted]
        show convEndCount cid2 (s.emitted ++ [_]) = _
        rw [convEndCount_append_single, i8 cid2]
        by_cases hc2 : cid2 = cid
        · subst hc2
          have hold : (s.conversations.any
              (fun d => d.id == cid2 && d.state == LifeState.ended)) = false := by
            rw [List.any_eq_false]
            intro d hd hcon
            simp only [Bool.and_eq_true, beq_iff_eq] at hcon
            have hdc : d = c :=
              List.inj_on_of_nodup_map i1 hd hcmem (by rw [hcon.1, hcid])
            rw [hdc, hcact] at hcon
            exact absurd hcon.2 (by simp)
          have hnew : ((s.conversations.map (fun d =>
              if d.id == cid2 then
                { d with state := LifeState.ended, endedAt := some s.clock }
              else d)).any
              (fun d => d.id == cid2 && d.state == LifeState.ended)) = true := by
            rw [List.any_eq_true]
            refine ⟨{ c with state := LifeState.ended, endedAt := some s.clock },
              ?_, by simp [hcid]⟩
            rw [List.mem_map]
            exact ⟨c, hcmem, by simp [hcid]⟩
          rw [hold, hnew]
          simp
        · have hsame : ((s.conversations.map (fun d =>
              if d.id == cid then
                { d with state := LifeState.ended, endedAt := some s.clock }
              else d)).any
              (fun d => d.id == cid2 && d.state == LifeState.ended)) =
              (s.conversations.any
                (fun d => d.id == cid2 && d.state == LifeState.ended)) := by
            rw [List.any_map]
            refine list_any_congr _ ?_
            intro d _
            by_cases hid : (d.id == cid) = true
            · rw [beq_iff_eq] at hid
              simp [Function.comp, hid, hc2, Ne.symm hc2]
            · simp [Function.comp, hid]
          rw [hsame]
          have hc2x : ¬cid = cid2 := fun hx => hc2 hx.symm
          simp [hc2, hc2x]
      · intro hcon
        rw [emit_state, setConversationEnded_state, hst] at hcon
        exact absurd hcon (by simp)
      · rw [emit_state, setConversationEnded_state, hst]

theorem list_countP_congr {α : Type} {p q : α → Bool} :
    ∀ (l : List α), (∀ a ∈ l, p a = q a) → l.countP p = l.countP q := by
  intro l
  induction l with
  | nil => intro _; rfl
  | cons a l ih =>
      intro h
      rw [List.countP_cons, List.countP_cons, h a (by simp),
        ih (fun b hb => h b (by simp [hb]))]

theorem sessionEndCount_append (l m : List Event) :
    sessionEndCount (l ++ m) = sessionEndCount l + sessionEndCount m := by
  simp [sessionEndCount, List.countP_append]

theorem convStartCount_append (cid : String) (l m : List Event) :
    convStartCount cid (l ++ m) = convStartCount cid l + convStartCount cid m := by
  simp [convStartCount, List.countP_append]

theorem convEndCount_append (cid : String) (l m : List Event) :
    convEndCount cid (l ++ m) = convEndCount cid l + convEndCount cid m := by
  simp [convEndCount, List.countP_append]

theorem endAll_filter_all_ended (s : SessionState)
    (hconvs : ∀ c ∈ s.conversations, c.state = .active ∨ c.state = .ended) :
    ∀ d ∈ (endAllConversations s (s.conversations.filter
        (fun c => c.state == LifeState.active))).conversations,
      d.state = .ended := by
  obtain ⟨_, _, _, _, q5⟩ := endAll_spec
    (s.conversations.filter (fun c => c.state == LifeState.active)) s
  intro d hd
  obtain ⟨d0, hd0, _, hst0, hcond0⟩ := q5 d hd
  rcases hconvs d0 hd0 with hact | hend
  · exact hcond0 ⟨d0, List.mem_filter.mpr ⟨hd0, by simp [hact]⟩, rfl⟩
  · rcases hst0 with h1 | h1
    · exact h1
    · rw [h1, hend]

theorem sessionInv_endSessionOp {s s1 : SessionState} (hInv : SessionInv s)
    (props : List (String × PropValue))
    (hok : endSessionOp s props = .ok s1) : SessionInv s1 := by
  obtain ⟨i1, i2, i3, i4, i5, i6, i7, i8, i9⟩ := hInv
  unfold endSessionOp at hok
  rcases hst : s.state with u | a | e <;> rw [hst] at hok
  case unstarted => exact absurd hok (by simp)
  case ended => exact absurd hok (by simp)
  case active =>
  simp only [Except.ok.injEq] at hok
  subst hok
  have hallend := endAll_filter_all_ended s i2
  obtain ⟨q1, q2, q3, ⟨suf, hsuf, hproj⟩, q5⟩ := endAll_spec
    (s.conversations.filter (fun c => c.state == LifeState.active)) s
  set T := endAllConversations s
    (s.conversations.filter (fun c => c.state == LifeState.active)) with hT
  have hsufkind : ∀ e ∈ suf, e.kind = .conversationEnd := by
    intro e he
    have hmm : (e.kind, e.conversationId) ∈
        suf.map (fun e => (e.kind, e.conversationId)) :=
      List.mem_map_of_mem _ he
    rw [hproj] at hmm
    obtain ⟨c, _, hc⟩ := List.mem_map.mp hmm
    exact (congrArg Prod.fst hc).symm
  have hsufend : sessionEndCount suf = 0 := by
    rw [sessionEndCount, List.countP_eq_zero]
    intro e he
    simp [hsufkind e he]
  have hsufstart : ∀ cid : String, convStartCount cid suf = 0 := by
    intro cid
    rw [convStartCount, List.countP_eq_zero]
    intro e he
    simp [hsufkind e he]
  have hsufendcnt : ∀ cid : String, convEndCount cid suf =
      (s.conversations.filter (fun c => c.state == LifeState.active)).countP
        (fun c => c.id == cid) := by
    intro cid
    have h1 : convEndCount cid suf =
        (suf.map (fun e => (e.kind, e.conversationId))).countP
          (fun pr => pr.1 == EventKind.conversationEnd && pr.2 == some cid) := by
      rw [List.countP_map]
      rfl
    rw [h1, hproj, List.countP_map]
    refine list_countP_congr _ ?_
    intro c _
    simp [Function.comp]
  have i5x : sessionEndCount s.emitted = 0 := by
    rw [i5, hst]
    simp
  have hconv : (({ T with state := LifeState.ended }).emit
      .sessionEnd none props [] none).conversations = T.conversations := rfl
  have hstate : (({ T with state := LifeState.ended }).emit
      .sessionEnd none props [] none).state = LifeState.ended := rfl
  have hemitted : (({ T with state := LifeState.ended }).emit
      .sessionEnd none props [] none).emitted = T.emitted ++
      [{ kind := .sessionEnd, seq := T.nextSeq, timestamp := T.clock,
         sessionId := T.sessionId, conversationId := none,
         properties := props, userTraits := [], cost := none }] := rfl
  refine ⟨?_, ?_, ?_, ?_, ?_, ?_, ?_, ?_, ?_⟩
  · rw [hconv, q3]
    exact i1
  · rw [hconv]
    intro c hc
    exact Or.inr (hallend c hc)
  · rw [hemitted, hsuf]
    refine noLateStart_append _ _ ?_ ?_
    · refine noLateStart_append _ _ i3 ?_
      intro e he
      rw [hsufkind e he]
      simp
    · intro e he
      simp only [List.mem_singleton] at he
      rw [he]
      simp
  · rw [hstate]
    intro hcon
    exact absurd hcon (by simp)
  · rw [hstate, hemitted, hsuf, List.append_assoc, sessionEndCount_append,
      sessionEndCount_append, i5x, hsufend]
    simp [sessionEndCount, List.countP_cons]
  · intro _
    rw [hemitted, List.getLast?_concat]
    rfl
  · intro cid
    rw [hconv, q3, hemitted, convStartCount_append_single, hsuf,
      convStartCount_append, i7 cid, hsufstart cid]
    simp
  · intro cid
    rw [hconv, hemitted, convEndCount_append_single, hsuf, convEndCount_append,
      i8 cid, hsufendcnt cid, List.countP_filter, countP_id_unique _ _ i1 cid]
    have hrhs : (T.conversations.any
        (fun c => c.id == cid && c.state == LifeState.ended)) =
        (T.conversations.any (fun c => c.id == cid)) := by
      refine list_any_congr _ ?_
      intro d hd
      simp [hallend d hd]
    rw [hrhs]
    by_cases hmem : cid ∈ s.conversations.map Conversation.id
    · obtain ⟨c0, hc0, hc0id⟩ := List.mem_map.mp hmem
      have hmemT : cid ∈ T.conversations.map Conversation.id := by
        rw [q3]
        exact hmem
      obtain ⟨d, hd, hdid⟩ := List.mem_map.mp hmemT
      have hanyT : (T.conversations.any (fun c => c.id == cid)) = true := by
        rw [List.any_eq_true]
        exact ⟨d, hd, by simp [hdid]⟩
      rw [hanyT]
      rcases i2 c0 hc0 with hact | hend
      · have h1 : (s.conversations.any
            (fun c => c.id == cid && c.state == LifeState.ended)) = false := by
          rw [List.any_eq_false]
          intro d2 hd2 hcon
          simp only [Bool.and_eq_true, beq_iff_eq] at hcon
          have : d2 = c0 :=
            List.inj_on_of_nodup_map i1 hd2 hc0 (by rw [hcon.1, hc0id])
          rw [this, hact] at hcon
          exact absurd hcon.2 (by simp)
        have h2 : (s.conversations.any
            (fun c => c.id == cid && c.state == LifeState.active)) = true := by
          rw [List.any_eq_true]
          exact ⟨c0, hc0, by simp [hc0id, hact]⟩
        rw [h1, h2]
        simp
      · have h1 : (s.conversations.any
            (fun c => c.id == cid && c.state == LifeState.ended)) = true := by
          rw [List.any_eq_true]
          exact ⟨c0, hc0, by simp [hc0id, hend]⟩
        have h2 : (s.conversations.any
            (fun c => c.id == cid && c.state == LifeState.active)) = false := by
          rw [List.any_eq_false]
          intro d2 hd2 hcon
          simp only [Bool.and_eq_true, beq_iff_eq] at hcon
          have : d2 = c0 :=
            List.inj_on_of_nodup_map i1 hd2 hc0 (by rw [hcon.1, hc0id])
          rw [this, hend] at hcon
          exact absurd hcon.2 (by simp)
        rw [h1, h2]
        simp
    · have h1 : (s.conversations.any
          (fun c => c.id == cid && c.state == LifeState.ended)) = false := by
        rw [List.any_eq_false]
        intro d2 hd2 hcon
        simp only [Bool.and_eq_true, beq_iff_eq] at hcon
        exact hmem (hcon.1 ▸ List.mem_map_of_mem Conversation.id hd2)
      have h2 : (s.conversations.any
          (fun c => c.id == cid && c.state == LifeState.active)) = false := by
        rw [List.any_eq_false]
        intro d2 hd2 hcon
        simp only [Bool.and_eq_true, beq_iff_eq] at hcon
        exact hmem (hcon.1 ▸ List.mem_map_of_mem Conversation.id hd2)
      have h3 : (T.conversations.any (fun c => c.id == cid)) = false := by
        rw [List.any_eq_false]
        intro d2 hd2 hcon
        rw [beq_iff_eq] at hcon
        refine hmem ?_
        rw [← q3]
        exact hcon ▸ List.mem_map_of_mem Conversation.id hd2
      rw [h1, h2, h3]
      simp
  · rw [hstate, hconv]
    intro _ c hc
    exact hallend c hc

theorem sessionInv_setUserId {s : SessionState} (hInv : SessionInv s)
    (u : Option String) : SessionInv { s with userId := u } :=
  ⟨hInv.ids_nodup, hInv.conv_states, hInv.no_late_start, hInv.unstarted_empty,
   hInv.end_count, hInv.end_last, hInv.conv_start, hInv.conv_end,
   hInv.ended_convs⟩

theorem sessionInv_trackEventOp {s s1 : SessionState} (hInv : SessionInv s)
    (props : List (String × PropValue))
    (hok : trackEventOp s props = .ok s1) : SessionInv s1 := by
  unfold trackEventOp at hok
  obtain ⟨a, ha, hok2⟩ := except_bind_ok _ _ _ hok
  obtain ⟨hIa, hsa⟩ := sessionInv_ensureSessionStarted hInv ha
  simp only [Except.ok.injEq] at hok2
  subst hok2
  exact sessionInv_emit_plain hIa hsa _ _ _ _ _
    (by simp) (by simp) (by simp) (by simp)

theorem sessionInv_startConversationOp {s s1 : SessionState}
    (hInv : SessionInv s) (cid : String) (props : List (String × PropValue))
    (hok : startConversationOp s cid props = .ok s1) : SessionInv s1 := by
  unfold startConversationOp at hok
  obtain ⟨a, ha, hok2⟩ := except_bind_ok _ _ _ hok
  obtain ⟨hIa, _⟩ := sessionInv_ensureSessionStarted hInv ha
  exact (sessionInv_startConversationCore hIa cid props hok2).1

theorem sessionInv_trackConversationTurnOp {s s1 : SessionState}
    (hInv : SessionInv s) (ocid : Option String) (cost : Option CostRecord)
    (hok : trackConversationTurnOp s ocid cost = .ok s1) : SessionInv s1 := by
  unfold trackConversationTurnOp at hok
  obtain ⟨a, ha, hok2⟩ := except_bind_ok _ _ _ hok
  obtain ⟨hIa, hsa⟩ := sessionInv_ensureSessionStarted hInv ha
  obtain ⟨b, hb, hok3⟩ := except_bind_ok _ _ _ hok2
  obtain ⟨hIb, hsb⟩ := sessionInv_ensureConversationStarted hIa hsa _ hb
  simp only [Except.ok.injEq] at hok3
  subst hok3
  exact sessionInv_emit_plain (sessionInv_bumpTurn hIb _) hsb _ _ _ _ _
    (by simp) (by simp) (by simp) (by simp)

theorem sessionInv_userIdentifyOp {s s1 : SessionState} (hInv : SessionInv s)
    (uid : String) (traits : List (String × PropValue))
    (hok : userIdentifyOp s uid traits = .ok s1) : SessionInv s1 := by
  unfold userIdentifyOp at hok
  obtain ⟨a, ha, hok2⟩ := except_bind_ok _ _ _ hok
  obtain ⟨hIa, hsa⟩ := sessionInv_ensureSessionStarted hInv ha
  simp only [Except.ok.injEq] at hok2
  subst hok2
  exact sessionInv_emit_plain (sessionInv_setUserId hIa (some uid)) hsa .identify none
    [] traits none (by simp) (by simp) (by simp) (by simp)

theorem sessionInv_userAliasOp {s s1 : SessionState} (hInv : SessionInv s)
    (newId prevId : String)
    (hok : userAliasOp s newId prevId = .ok s1) : SessionInv s1 := by
  unfold userAliasOp at hok
  obtain ⟨a, ha, hok2⟩ := except_bind_ok _ _ _ hok
  obtain ⟨hIa, hsa⟩ := sessionInv_ensureSessionStarted hInv ha
  simp only [Except.ok.injEq] at hok2
  subst hok2
  exact sessionInv_emit_plain (sessionInv_setUserId hIa (some newId)) hsa .aliasUser none
    [("previous_id", PropValue.str prevId)] [] none
    (by simp) (by simp) (by simp) (by simp)

theorem sessionInv_applyCall {s s1 : SessionState} (hInv : SessionInv s)
    (c : Call) (hok : applyCall s c = .ok s1) : SessionInv s1 := by
  cases c with
  | startSession uid props =>
      exact (sessionInv_startSessionOp hInv uid props hok).1
  | trackEvent props => exact sessionInv_trackEventOp hInv props hok
  | startConversation cid props =>
      exact sessionInv_startConversationOp hInv cid props hok
  | trackConversationTurn ocid cost =>
      exact sessionInv_trackConversationTurnOp hInv ocid cost hok
  | endConversation cid props =>
      exact (sessionInv_endConversationOp hInv cid props hok).1
  | endSession props => exact sessionInv_endSessionOp hInv props hok
  | userIdentify uid traits =>
      exact sessionInv_userIdentifyOp hInv uid traits hok
  | userAlias newId prevId =>
      exact sessionInv_userAliasOp hInv newId prevId hok

theorem sessionInv_step {s : SessionState} (hInv : SessionInv s) (c : Call) :
    SessionInv (step s c) := by
  unfold step
  rcases hap : applyCall s c with e | s1
  · exact hInv
  · exact sessionInv_applyCall hInv c hap

theorem sessionInv_initSession (sid : String) :
    SessionInv (initSession sid) := by
  refine ⟨?_, ?_, ?_, ?_, ?_, ?_, ?_, ?_, ?_⟩ <;>
    simp [initSession, noLateStart, sessionEndCount, convStartCount,
      convEndCount]

theorem sessionInv_runCalls {s : SessionState} (hInv : SessionInv s) :
    ∀ calls : List Call, SessionInv (runCalls s calls) := by
  intro calls
  induction calls generalizing s with
  | nil => exact hInv
  | cons c cs ih =>
      show SessionInv (runCalls (step s c) cs)
      exact ih (sessionInv_step hInv c)

theorem wfStream_of_sessionInv {s : SessionState} (hInv : SessionInv s) :
    wfStream s.emitted = true := by
  obtain ⟨i1, i2, i3, i4, i5, i6, i7, i8, i9⟩ := hInv
  unfold wfStream
  rw [Bool.and_eq_true]
  constructor
  · rw [List.all_eq_true]
    intro e he
    simpa using i3 e he
  · by_cases hany : (s.emitted.any (fun e => e.kind == EventKind.sessionEnd)) = true
    · rw [hany]
      simp only [Bool.not_true, Bool.false_or]
      have hend : s.state = .ended := by
        by_contra hne
        have h0 : sessionEndCount s.emitted = 0 := by
          rw [i5, if_neg hne]
        obtain ⟨e, he, hpe⟩ := List.any_eq_true.mp hany
        have hpos : 0 < sessionEndCount s.emitted := by
          rw [sessionEndCount]
          exact List.countP_pos_iff.mpr ⟨e, he, hpe⟩
        omega
      have hcnt : sessionEndCount s.emitted = 1 := by
        rw [i5, if_pos hend]
      have hlast := i6 hend
      rw [Bool.and_eq_true, Bool.and_eq_true]
      refine ⟨⟨?_, ?_⟩, ?_⟩
      · simp [hcnt]
      · rcases hl : s.emitted.getLast? with _ | e
        · rw [hl] at hlast
          simp at hlast
        · rw [hl] at hlast
          simp only [Option.map_some'] at hlast
          have hek : e.kind = .sessionEnd := by
            injection hlast
          simp [hek]
      · rw [List.all_eq_true]
        intro cid hcid
        unfold convIdsIn at hcid
        obtain ⟨e, he, hfe⟩ := List.mem_filterMap.mp hcid
        by_cases hk : (e.kind == EventKind.conversationStart ||
            e.kind == EventKind.conversationEnd) = true
        · rw [if_pos hk] at hfe
          have hmem : cid ∈ s.conversations.map Conversation.id := by
            rcases (Bool.or_eq_true _ _).mp hk with hks | hke
            · rw [beq_iff_eq] at hks
              have hpos : 0 < convStartCount cid s.emitted := by
                rw [convStartCount]
                refine List.countP_pos_iff.mpr ⟨e, he, ?_⟩
                simp [hks, hfe]
              by_contra hnm
              rw [i7 cid, if_neg hnm] at hpos
              omega
            · rw [beq_iff_eq] at hke
              have hpos : 0 < convEndCount cid s.emitted := by
                rw [convEndCount]
                refine List.countP_pos_iff.mpr ⟨e, he, ?_⟩
                simp [hke, hfe]
              by_cases hanyend : (s.conversations.any
                  (fun c => c.id == cid && c.state == LifeState.ended)) = true
              · obtain ⟨d, hd, hpd⟩ := List.any_eq_true.mp hanyend
                simp only [Bool.and_eq_true, beq_iff_eq] at hpd
                exact hpd.1 ▸ List.mem_map_of_mem Conversation.id hd
              · rw [Bool.not_eq_true] at hanyend
                rw [i8 cid, hanyend] at hpos
                simp at hpos
          obtain ⟨c0, hc0, hc0id⟩ := List.mem_map.mp hmem
          have hstart1 : convStartCount cid s.emitted = 1 := by
            rw [i7 cid, if_pos hmem]
          have hend1 : convEndCount cid s.emitted = 1 := by
            rw [i8 cid]
            have : (s.conversations.any
                (fun c => c.id == cid && c.state == LifeState.ended)) = true := by
              rw [List.any_eq_true]
              exact ⟨c0, hc0, by simp [hc0id, i9 hend c0 hc0]⟩
            rw [this]
            simp
          simp [hstart1, hend1]
        · rw [Bool.not_eq_true] at hk
          rw [if_neg (by simp [hk])] at hfe
          exact absurd hfe (by simp)
    · rw [Bool.not_eq_true] at hany
      rw [hany]
      simp

/-- C1: for every sequence of lifecycle calls on one session facade (the
state machine rejecting invalid calls synchronously and emitting nothing
for them), the event stream handed to the transport side is well-formed:
the `SessionStart` event precedes every other event of the session, and
once the `SessionEnd` event is present it is unique and final, with every
`ConversationStart` matched by exactly one `ConversationEnd` occurring
before the `SessionEnd`. -/
theorem lifecycle_stream_wellformed (sid : String) (calls : List Call) :
    wfStream (runCalls (initSession sid) calls).emitted = true :=
  wfStream_of_sessionInv (sessionInv_runCalls (sessionInv_initSession sid) calls)

example : (runCalls (initSession "s")
    [.trackConversationTurn none none, .endSession []]).emitted.map Event.kind =
    [.sessionStart, .conversationStart, .conversationTurn,
     .conversationEnd, .sessionEnd] := by decide

example : wfStream (runCalls (initSession "s")
    [.endConversation "c" [], .trackConversationTurn none none,
     .startConversation "c" [], .endSession [],
     .trackEvent []]).emitted = true := by decide
